import Mathlib

/-! Verification of the pelican_bibtex plugin (src/pelican_bibtex.py).

The plugin's own code (the function add_publications and the class
CustomStyle with its format_bold_title, format_article,
format_inproceedings and format_techreport templates) is embedded
directly.  The pybtex library the plugin composes is an external
dependency; the parts of it the plugin exercises are modelled here from
the library's behaviour, each noted in its doc comment: the rich text
type with its HTML backend, the template combinators (join, words,
sentence, optional, first_of, field, tag), the unsrt style helpers
(pages with dashify, date, name formatting, editor, volume and series,
address/organization/publisher/date, web refs, the misc fallback), the
author-year-title sorting that the plain style performs inside
format_entries, the BibTeX writer, and CPython list.sort semantics for
the final year sort. -/

/-- Model of pybtex rich text: plain strings, tags, backend symbols,
hyperlinks, the empty text and concatenation.  A multipart text
[a, b, c] is represented as app a (app b c), so the last part of a
multipart text is the right spine's end. -/
inductive RichText where
  | str (s : String)
  | tag (name : String) (child : RichText)
  | symbol (name : String)
  | href (url : String) (child : RichText)
  | empty
  | app (a b : RichText)
deriving Repr, DecidableEq

/-- Logical length of a rich text, as pybtex len() uses for truthiness;
a symbol counts as one character. -/
def plainLen : RichText → Nat
  | .str s => s.length
  | .tag _ c => plainLen c
  | .symbol _ => 1
  | .href _ c => plainLen c
  | .empty => 0
  | .app a b => plainLen a + plainLen b

/-- Build a multipart text from a list of parts. -/
def seqR (l : List RichText) : RichText :=
  match l with
  | [] => .empty
  | [x] => x
  | x :: xs => .app x (seqR xs)

/-- The character a rich text ends with, following pybtex endswith:
only the last part of a multipart text is inspected, and symbols have
no final character. -/
def lastCharR : RichText → Option Char
  | .str s => s.data.getLast?
  | .tag _ c => lastCharR c
  | .symbol _ => none
  | .href _ c => lastCharR c
  | .empty => none
  | .app _ b => lastCharR b

def isTerminatorChar (c : Char) : Bool := c = '.' || c = '?' || c = '!'

/-- Model of pybtex Text.add_period: append a period to a nonempty text
that does not already end in terminating punctuation. -/
def addPeriod (t : RichText) : RichText :=
  if plainLen t = 0 then t
  else
    match lastCharR t with
    | some c => if isTerminatorChar c then t else .app t (.str ".")
    | none => .app t (.str ".")

/-- HTML escaping of character data, as the pybtex HTML backend applies
to plain string parts. -/
def escChar (c : Char) : String :=
  if c = '&' then "&amp;"
  else if c = '<' then "&lt;"
  else if c = '>' then "&gt;"
  else String.mk [c]

def escapeHtml (s : String) : String := String.join (s.data.map escChar)

/-- Backend symbol table: the plugin overrides newline to render as
a br element; ndash and nbsp are the pybtex HTML backend defaults. -/
def symbolHtml (n : String) : String :=
  if n = "newline" then "<br>"
  else if n = "ndash" then "&ndash;"
  else if n = "nbsp" then "&nbsp;"
  else ""

/-- Model of rendering rich text through the pybtex HTML backend (with
the plugin's newline override): tags and links with empty content
render as nothing, strings are escaped, symbols use the symbol table. -/
def renderHtml : RichText → String
  | .str s => escapeHtml s
  | .tag n c => if plainLen c = 0 then "" else "<" ++ n ++ ">" ++ renderHtml c ++ "</" ++ n ++ ">"
  | .symbol n => symbolHtml n
  | .href u c =>
    if plainLen c = 0 then "" else "<a href=\"" ++ u ++ "\">" ++ renderHtml c ++ "</a>"
  | .empty => ""
  | .app a b => renderHtml a ++ renderHtml b

/-- A formatting computation: pybtex templates raise FieldIsMissing for
a missing required field, modelled by Except. -/
abbrev Fmt := Except Unit RichText

/-- Evaluate a list of child templates left to right, propagating the
first failure; models the eager _format_list of pybtex templates. -/
def seqFmt : List Fmt → Except Unit (List RichText)
  | [] => .ok []
  | .error e :: _ => .error e
  | .ok t :: fs =>
    match seqFmt fs with
    | .ok ts => .ok (t :: ts)
    | .error e => .error e

def intersperseSep (sep : RichText) : List RichText → List RichText
  | [] => []
  | [x] => [x]
  | x :: xs => x :: sep :: intersperseSep sep xs

/-- Model of the pybtex join node on already formatted parts: empty
parts are dropped; two parts are joined with sep2, more parts join all
but the last with sep and append the last with lastSep. -/
def joinTexts (sep sep2 lastSep : RichText) (l : List RichText) : RichText :=
  let parts := l.filter (fun t => plainLen t != 0)
  match parts with
  | [] => .empty
  | [x] => x
  | [x, y] => seqR [x, sep2, y]
  | _ => seqR [seqR (intersperseSep sep parts.dropLast), lastSep, parts.getLastD .empty]

def joinFmt (sep : RichText) (l : List Fmt) : Fmt :=
  (seqFmt l).map (joinTexts sep sep sep)

/-- Model of the pybtex words node: join with single spaces. -/
def wordsFmt (l : List Fmt) : Fmt := joinFmt (.str " ") l

/-- Model of the pybtex sentence node: join with the separator
(default a comma and space) and add a final period. -/
def sentenceSepFmt (sep : RichText) (l : List Fmt) : Fmt :=
  (joinFmt sep l).map addPeriod

def sentenceFmt (l : List Fmt) : Fmt := sentenceSepFmt (.str ", ") l

/-- Model of the pybtex optional node: a FieldIsMissing failure inside
is absorbed, yielding empty text. -/
def optionalFmt (f : Fmt) : Fmt :=
  match f with
  | .ok t => .ok t
  | .error _ => .ok .empty

def firstNonEmpty : List RichText → RichText
  | [] => .empty
  | t :: ts => if plainLen t != 0 then t else firstNonEmpty ts

/-- Model of the pybtex first_of node: all children are formatted
(so a failing later child still raises), then the first nonempty
result is returned. -/
def firstOfFmt (l : List Fmt) : Fmt :=
  (seqFmt l).map firstNonEmpty

def tagFmt (n : String) (f : Fmt) : Fmt := f.map (.tag n)

def strFmt (s : String) : Fmt := .ok (.str s)

/-- Model of a pybtex Person as stored after name parsing: lists of
name-part tokens. -/
structure Person where
  firstNames : List String
  middleNames : List String
  prelastNames : List String
  lastNames : List String
  lineageNames : List String
deriving Repr, DecidableEq

/-- The entry types the plugin defines formatters for, plus misc
standing for the fallback style of the external library. -/
inductive EntryType where
  | article
  | inproceedings
  | techreport
  | misc
deriving Repr, DecidableEq

/-- Model of a pybtex database entry: a type tag, the non-person
fields, and the person roles (author, editor) with their parsed
persons. -/
structure Entry where
  type : EntryType
  fields : List (String × String)
  persons : List (String × List Person)
deriving Repr, DecidableEq

def lookupStr : List (String × String) → String → Option String
  | [], _ => none
  | (k, v) :: rest, name => if k = name then some v else lookupStr rest name

def lookupRole : List (String × List Person) → String → Option (List Person)
  | [], _ => none
  | (k, v) :: rest, name => if k = name then some v else lookupRole rest name

/-- Model of the pybtex field node: the field's value as text, raising
FieldIsMissing when absent. -/
def fieldFmt (e : Entry) (name : String) : Fmt :=
  match lookupStr e.fields name with
  | some v => .ok (.str v)
  | none => .error ()

def optionalFieldFmt (e : Entry) (name : String) : Fmt := optionalFmt (fieldFmt e name)

def headIsDash : List Char → Bool
  | '-' :: _ => true
  | _ => false

/-- Split a character list on runs of dashes, as re.split with a
one-or-more-dashes pattern does; outer empty pieces are kept. -/
def splitDashes : List Char → List (List Char)
  | [] => [[]]
  | c :: rest =>
    if c = '-' then
      if headIsDash rest then splitDashes rest else [] :: splitDashes rest
    else
      match splitDashes rest with
      | [] => [[c]]
      | g :: gs => (c :: g) :: gs

/-- Model of unsrt dashify: dash runs are replaced by the ndash
symbol. -/
def dashify (s : String) : RichText :=
  seqR (intersperseSep (.symbol "ndash") ((splitDashes s.data).map (fun l => .str (String.mk l))))

/-- Model of unsrt pages: the pages field with dashify applied. -/
def pagesFmt (e : Entry) : Fmt :=
  match lookupStr e.fields "pages" with
  | some v => .ok (dashify v)
  | none => .error ()

/-- Model of unsrt date: optional month and required year, joined as
words. -/
def dateFmt (e : Entry) : Fmt := wordsFmt [optionalFieldFmt e "month", fieldFmt e "year"]

/-- Model of the discretionary tie after a short name part: parts of
logical length at most three are followed by a nonbreaking space. -/
def tieOrSpace (t : RichText) : RichText :=
  if plainLen t ≤ 3 then .symbol "nbsp" else .str " "

/-- Model of the pybtex name_part node: tokens joined with spaces,
with an optional leading string and an optional trailing tie. -/
def namePart (before : String) (tie : Bool) (names : List String) : RichText :=
  let parts := joinTexts (.str " ") (.str " ") (.str " ") (names.map .str)
  if plainLen parts = 0 then .empty
  else if tie then seqR [.str before, parts, tieOrSpace parts]
  else seqR [.str before, parts]

/-- Model of the pybtex plain name style: first and middle names (with
tie), von part (with tie), last names, then lineage after a comma. -/
def formatName (p : Person) : RichText :=
  joinTexts (.str "") (.str "") (.str "")
    [ namePart "" true (p.firstNames ++ p.middleNames),
      namePart "" true p.prelastNames,
      namePart "" false p.lastNames,
      namePart ", " false p.lineageNames ]

/-- Model of the pybtex names node: all persons of a role formatted and
joined with commas and the word and; raises FieldIsMissing when the
role is absent from the entry. -/
def namesFmt (e : Entry) (role : String) : Fmt :=
  match lookupRole e.persons role with
  | some ps => .ok (joinTexts (.str ", ") (.str " and ") (.str ", and ") (ps.map formatName))
  | none => .error ()

/-- Model of unsrt format_names: the role's names, as a sentence when
requested. -/
def format_names (e : Entry) (role : String) (asSentence : Bool) : Fmt :=
  if asSentence then sentenceFmt [namesFmt e role] else namesFmt e role

/-- Model of unsrt format_btitle: the field in an em tag. -/
def format_btitle (e : Entry) (whichField : String) (asSentence : Bool) : Fmt :=
  let t := tagFmt "em" (fieldFmt e whichField)
  if asSentence then sentenceFmt [t] else t

/-- Model of unsrt format_editor: the editors followed by the word
editor or editors; the underlying names template raises when the
editor role is absent. -/
def format_editor (e : Entry) (asSentence : Bool) : Fmt :=
  match lookupRole e.persons "editor" with
  | none => namesFmt e "editor"
  | some ps =>
    let word := if ps.length > 1 then "editors" else "editor"
    let r := joinFmt (.str ", ") [namesFmt e "editor", strFmt word]
    if asSentence then sentenceFmt [r] else r

/-- Model of unsrt format_volume_and_series: volume of series, else
number in series, else bare series; entirely optional. -/
def format_volume_and_series (e : Entry) (asSentence : Bool) : Fmt :=
  let vWord := if asSentence then "Volume" else "volume"
  let nWord := if asSentence then "Number" else "number"
  let volumeAndSeries := optionalFmt (wordsFmt [strFmt vWord, fieldFmt e "volume",
    optionalFmt (wordsFmt [strFmt "of", fieldFmt e "series"])])
  let numberAndSeries := optionalFmt (wordsFmt
    [joinFmt (.symbol "nbsp") [strFmt nWord, fieldFmt e "number"],
     optionalFmt (wordsFmt [strFmt "in", fieldFmt e "series"])])
  let series := optionalFieldFmt e "series"
  firstOfFmt [volumeAndSeries, numberAndSeries, series]

/-- Model of unsrt format_address_organization_publisher_date:
everything is optional except the date (which needs the year field). -/
def format_address_org_pub_date (e : Entry) : Fmt :=
  firstOfFmt
    [ optionalFmt (wordsFmt
        [ sentenceFmt [fieldFmt e "address", dateFmt e],
          sentenceFmt [optionalFieldFmt e "organization", optionalFieldFmt e "publisher"] ]),
      sentenceFmt [optionalFieldFmt e "organization", optionalFieldFmt e "publisher", dateFmt e] ]

def hrefField (e : Entry) (name : String) (pre : String) (textPre : String) : Fmt :=
  match lookupStr e.fields name with
  | some v => .ok (.href (pre ++ v) (.str (textPre ++ v)))
  | none => .error ()

/-- Model of unsrt format_url. -/
def format_url (e : Entry) : Fmt := wordsFmt [strFmt "URL:", hrefField e "url" "" ""]

/-- Model of unsrt format_pubmed. -/
def format_pubmed (e : Entry) : Fmt :=
  hrefField e "pubmed" "https://www.ncbi.nlm.nih.gov/pubmed/" "PMID:"

/-- Model of unsrt format_doi. -/
def format_doi (e : Entry) : Fmt := hrefField e "doi" "https://doi.org/" "doi:"

/-- Model of unsrt format_eprint. -/
def format_eprint (e : Entry) : Fmt := hrefField e "eprint" "https://arxiv.org/abs/" "arXiv:"

/-- Model of unsrt format_web_refs: all optional link clauses. -/
def format_web_refs (e : Entry) : Fmt :=
  sentenceFmt
    [ optionalFmt (format_url e), optionalFmt (format_pubmed e),
      optionalFmt (format_doi e), optionalFmt (format_eprint e) ]

/-- Model of the pybtex toplevel template: parts joined with single
spaces. -/
def toplevelFmt (l : List Fmt) : Fmt := joinFmt (.str " ") l

/-- Embedding of CustomStyle.format_bold_title: the field in a strong
tag, as a sentence when requested. -/
def format_bold_title (e : Entry) (whichField : String) (asSentence : Bool) : Fmt :=
  let t := tagFmt "strong" (fieldFmt e whichField)
  if asSentence then sentenceFmt [t] else t

/-- Embedding of the volume_and_pages first_of template inside
CustomStyle.format_article: volume with optional parenthesised number,
a colon and the pages, else the word pages followed by the pages. -/
def volumeAndPagesFmt (e : Entry) : Fmt :=
  firstOfFmt
    [ optionalFmt (joinFmt (.str "")
        [ fieldFmt e "volume",
          optionalFmt (joinFmt (.str "") [strFmt "(", fieldFmt e "number", strFmt ")"]),
          strFmt ":", pagesFmt e ]),
      wordsFmt [strFmt "pages", pagesFmt e] ]

/-- Embedding of CustomStyle.format_article. -/
def format_article (e : Entry) : Fmt :=
  toplevelFmt
    [ format_bold_title e "title" true,
      .ok (.symbol "newline"),
      format_names e "author" true,
      .ok (.symbol "newline"),
      sentenceFmt [tagFmt "em" (fieldFmt e "journal"), optionalFmt (volumeAndPagesFmt e), dateFmt e],
      sentenceFmt [optionalFieldFmt e "note"],
      format_web_refs e ]

/-- Embedding of CustomStyle.format_inproceedings. -/
def format_inproceedings (e : Entry) : Fmt :=
  toplevelFmt
    [ format_bold_title e "title" true,
      .ok (.symbol "newline"),
      sentenceFmt [format_names e "author" true],
      .ok (.symbol "newline"),
      wordsFmt
        [ strFmt "In",
          sentenceFmt
            [ optionalFmt (format_editor e false),
              format_btitle e "booktitle" false,
              format_volume_and_series e false ],
          format_address_org_pub_date e ],
      sentenceFmt [optionalFieldFmt e "note"],
      format_web_refs e ]

/-- Embedding of CustomStyle.format_techreport. -/
def format_techreport (e : Entry) : Fmt :=
  toplevelFmt
    [ format_bold_title e "title" true,
      .ok (.symbol "newline"),
      sentenceFmt [format_names e "author" true],
      .ok (.symbol "newline"),
      sentenceFmt
        [ wordsFmt
            [ firstOfFmt [optionalFieldFmt e "type", strFmt "Technical Report"],
              optionalFieldFmt e "number" ],
          fieldFmt e "institution",
          optionalFieldFmt e "address",
          dateFmt e ],
      sentenceFmt [optionalFieldFmt e "note"],
      format_web_refs e ]

/-- Model of the external unsrt misc template, the fallback for entry
types without a plugin-defined formatter; everything is optional. -/
def format_misc (e : Entry) : Fmt :=
  toplevelFmt
    [ optionalFmt (sentenceFmt [format_names e "author" true]),
      optionalFmt (format_btitle e "title" true),
      sentenceFmt [optionalFieldFmt e "howpublished", optionalFmt (dateFmt e)],
      sentenceFmt [optionalFieldFmt e "note"],
      format_web_refs e ]

/-- Dispatch by entry type, as the style's format_entry does: the
plugin's three formatters, with the library fallback for misc. -/
def formatEntry (e : Entry) : Fmt :=
  match e.type with
  | .article => format_article e
  | .inproceedings => format_inproceedings e
  | .techreport => format_techreport e
  | .misc => format_misc e

def joinSpace (l : List String) : String := String.intercalate " " l

def lowerStr (s : String) : String := String.mk (s.data.map Char.toLower)

/-- Model of the author_year_title sorting style's person_key: von and
last names, first and middle names, lineage, double-space separated
and lowercased. -/
def personKey (p : Person) : String :=
  lowerStr (String.intercalate "  "
    [ joinSpace (p.prelastNames ++ p.lastNames),
      joinSpace (p.firstNames ++ p.middleNames),
      joinSpace p.lineageNames ])

def personsKey (ps : List Person) : String :=
  String.intercalate "   " (ps.map personKey)

def authorKey (e : Entry) : String :=
  match lookupRole e.persons "author" with
  | some ps => personsKey ps
  | none => ""

/-- Model of the plain style's author_year_title sorting key (none of
the modelled entry types is book or inbook, so the author branch
always applies). -/
def sortingKey (e : Entry) : String × String × String :=
  (authorKey e, (lookupStr e.fields "year").getD "", (lookupStr e.fields "title").getD "")

/-- Python character comparison: by code point. -/
def charLtB (a b : Char) : Bool := Nat.blt a.toNat b.toNat

/-- Python string comparison: lexicographic by code point; a proper
front segment is smaller. -/
def strLtL : List Char → List Char → Bool
  | [], [] => false
  | [], _ :: _ => true
  | _ :: _, [] => false
  | a :: as, b :: bs =>
    if charLtB a b then true else if charLtB b a then false else strLtL as bs

def strLtB (a b : String) : Bool := strLtL a.data b.data

/-- Python tuple comparison on the three string components,
lexicographic. -/
def keyLtB (a b : String × String × String) : Bool :=
  if strLtB a.1 b.1 then true
  else if strLtB b.1 a.1 then false
  else if strLtB a.2.1 b.2.1 then true
  else if strLtB b.2.1 a.2.1 then false
  else strLtB a.2.2 b.2.2

/-- Stable insertion of an earlier element into the ascending-sorted
list of the later elements: later elements stay in front only while
strictly smaller. -/
def insAsc (x : String × Entry) : List (String × Entry) → List (String × Entry)
  | [] => [x]
  | y :: ys =>
    if keyLtB (sortingKey y.2) (sortingKey x.2) then y :: insAsc x ys else x :: y :: ys

/-- Model of the sort the plain style performs inside format_entries:
CPython sorted() on the author_year_title key, ascending and stable. -/
def sortAyt (db : List (String × Entry)) : List (String × Entry) :=
  db.foldr insAsc []

/-- The output tuple of the plugin: (key, year, text, bibtex, pdf,
slides, poster, type field value). -/
structure Pub where
  key : String
  year : Option String
  text : String
  bibtex : String
  pdf : Option String
  slides : Option String
  poster : Option String
  entrytype : Option String
deriving Repr, DecidableEq

def typeName : EntryType → String
  | .article => "article"
  | .inproceedings => "inproceedings"
  | .techreport => "techreport"
  | .misc => "misc"

/-- Model of str(Person): von Last, Jr, First with empty parts
dropped. -/
def personStr (p : Person) : String :=
  String.intercalate ", "
    (([ joinSpace (p.prelastNames ++ p.lastNames),
        joinSpace p.lineageNames,
        joinSpace (p.firstNames ++ p.middleNames) ]).filter (fun s => s ≠ ""))

def joinNames (ps : List Person) : String :=
  String.intercalate " and " (ps.map personStr)

/-- Running brace depth of a value, as the writer's check_braces
computes; the written value is acceptable when it ends at zero. -/
def braceDepth (l : List Char) : Int :=
  l.foldl (fun d c => if c = '\x7b' then d + 1 else if c = '\x7d' then d - 1 else d) 0

def balancedValue (s : String) : Bool := braceDepth s.data = 0

/-- One written field line, as Writer._write_field emits. -/
def writeField (name value : String) : String :=
  ",\n    " ++ name ++ " = \x7b" ++ value ++ "\x7d"

/-- Model of the pybtex BibTeX Writer on the singleton database the
plugin builds per entry: the type and key header, the nonempty person
roles as fields whose value joins the names with the word and, then
the ordinary fields, then the closing line.  The BibTeXError raised by
check_braces on a value with unmatched braces is the error case. -/
def writeEntry (key : String) (e : Entry) : Except Unit String :=
  if (e.persons.all (fun rp => rp.2.isEmpty || balancedValue (joinNames rp.2))) &&
      (e.fields.all (fun kv => balancedValue kv.2)) then
    .ok ("@" ++ typeName e.type ++ "\x7b" ++ key
      ++ String.join ((e.persons.filter (fun rp => !rp.2.isEmpty)).map
          (fun rp => writeField rp.1 (joinNames rp.2)))
      ++ String.join (e.fields.map (fun kv => writeField kv.1 kv.2))
      ++ "\n\x7d\n")
  else .error ()

/-- The uncaught Python exceptions the plugin can raise. -/
inductive PyErr where
  | fieldMissing
  | bibtexError
  | typeError
deriving Repr, DecidableEq

/-- The per-entry body of the add_publications loop: format the entry,
extract year, pdf, slides, poster and the type field with absent
defaults, serialise the singleton database, render the text through
the HTML backend and assemble the tuple. -/
def buildPub (key : String) (e : Entry) : Except PyErr Pub :=
  match formatEntry e with
  | .error _ => .error .fieldMissing
  | .ok t =>
    match writeEntry key e with
    | .error _ => .error .bibtexError
    | .ok bib =>
      .ok { key := key, year := lookupStr e.fields "year",
            text := renderHtml t, bibtex := bib,
            pdf := lookupStr e.fields "pdf", slides := lookupStr e.fields "slides",
            poster := lookupStr e.fields "poster", entrytype := lookupStr e.fields "type" }

/-- The loop over the formatted entries, in order; the first uncaught
exception aborts the whole batch. -/
def buildPubs : List (String × Entry) → Except PyErr (List Pub)
  | [] => .ok []
  | (k, e) :: rest =>
    match buildPub k e with
    | .error err => .error err
    | .ok p =>
      match buildPubs rest with
      | .ok ps => .ok (p :: ps)
      | .error err => .error err

def pubYearKey (p : Pub) : String := p.year.getD ""

/-- Stable insertion for the descending year sort: later elements stay
in front only while their year is strictly greater. -/
def insDesc (x : Pub) : List Pub → List Pub
  | [] => [x]
  | y :: ys => if strLtB (pubYearKey x) (pubYearKey y) then y :: insDesc x ys else x :: y :: ys

def sortYearDesc (l : List Pub) : List Pub := l.foldr insDesc []

/-- Model of CPython list.sort(key=itemgetter(1), reverse=True) on the
publication tuples under Python 3 semantics: with zero or one element
no comparison happens; otherwise, if any year is absent, some
comparison involves None and raises TypeError; otherwise the sort is a
stable descending sort on the year strings (code point order). -/
def sortPubs (l : List Pub) : Except PyErr (List Pub) :=
  if l.length ≤ 1 then .ok l
  else if l.all (fun p => p.year.isSome) then .ok (sortYearDesc l)
  else .error .typeError

/-- The entry-processing pipeline of add_publications on a parsed
database given in parse order: the plain style's author-year-title
sort inside format_entries, the per-entry loop, then the final year
sort. -/
def runPipeline (db : List (String × Entry)) : Except PyErr (List Pub) :=
  match buildPubs (sortAyt db) with
  | .error e => .error e
  | .ok pubs => sortPubs pubs

/-- Outcome of Parser().parse_file on the configured path. -/
inductive ParseResult where
  | err (msg : String)
  | ok (db : List (String × Entry))

/-- The pelican generator surface the plugin touches: its settings and
its context, of which the plugin only ever writes the publications
key. -/
structure Generator where
  settings : List (String × String)
  context : List (String × List Pub)
deriving DecidableEq

def setCtx : List (String × List Pub) → String → List Pub → List (String × List Pub)
  | [], k, v => [(k, v)]
  | (k2, v2) :: rest, k, v =>
    if k2 = k then (k, v) :: rest else (k2, v2) :: setCtx rest k v

/-- The warning message add_publications logs on a parse failure. -/
def parseWarning (path msg : String) : String :=
  "`pelican_bibtex` failed to parse file " ++ path ++ ": " ++ msg

/-- Embedding of add_publications: a missing PUBLICATIONS_SRC setting
means silent return; a parse failure logs a warning naming the path
and the error and returns; otherwise the pipeline result is written to
the publications context key.  Uncaught Python exceptions from
formatting, serialising or the final sort are the error case. -/
def add_publications (parseFile : String → ParseResult) (g : Generator) :
    Except PyErr (Generator × List String) :=
  match lookupStr g.settings "PUBLICATIONS_SRC" with
  | none => .ok (g, [])
  | some path =>
    match parseFile path with
    | .err m => .ok (g, [parseWarning path m])
    | .ok db =>
      match runPipeline db with
      | .error e => .error e
      | .ok pubs => .ok ({ g with context := setCtx g.context "publications" pubs }, [])

def removeField (e : Entry) (name : String) : Entry :=
  { e with fields := e.fields.filter (fun kv => kv.1 != name) }

def removeRole (e : Entry) (role : String) : Entry :=
  { e with persons := e.persons.filter (fun rp => rp.1 != role) }

/-- Whether a formatting computation succeeded (no FieldIsMissing). -/
def fmtOk : Fmt → Bool
  | .ok _ => true
  | .error _ => false

/-- The fields and roles whose presence each formatter requires;
every other field is optional for it. -/
def requiredOk (e : Entry) : Bool :=
  match e.type with
  | .article =>
    (lookupStr e.fields "title").isSome && (lookupRole e.persons "author").isSome &&
      (lookupStr e.fields "journal").isSome && (lookupStr e.fields "year").isSome
  | .inproceedings =>
    (lookupStr e.fields "title").isSome && (lookupRole e.persons "author").isSome &&
      (lookupStr e.fields "booktitle").isSome && (lookupStr e.fields "year").isSome
  | .techreport =>
    (lookupStr e.fields "title").isSome && (lookupRole e.persons "author").isSome &&
      (lookupStr e.fields "institution").isSome && (lookupStr e.fields "year").isSome
  | .misc => true

def lookupEntry : List (String × Entry) → String → Option Entry
  | [], _ => none
  | (k, e) :: rest, key => if k = key then some e else lookupEntry rest key

/-- The author_year_title key of the database entry a publication came
from, recovered through its key. -/
def entryKeyOf (db : List (String × Entry)) (p : Pub) : String × String × String :=
  match lookupEntry db p.key with
  | some e => sortingKey e
  | none => ("", "", "")

def isPrefixL : List Char → List Char → Bool
  | [], _ => true
  | _ :: _, [] => false
  | a :: as, b :: bs => a = b && isPrefixL as bs

def isInfixL (sub : List Char) : List Char → Bool
  | [] => sub.isEmpty
  | c :: rest => isPrefixL sub (c :: rest) || isInfixL sub rest

/-- Substring test on the character lists. -/
def containsSub (s sub : String) : Bool := isInfixL sub.data s.data

def isWsChar (c : Char) : Bool := c = ' ' || c = '\n' || c = '\t' || c = '\r'

def dropWs : List Char → List Char
  | [] => []
  | c :: cs => if isWsChar c then dropWs cs else c :: cs

def scanUntil (p : Char → Bool) : List Char → List Char × List Char
  | [] => ([], [])
  | c :: cs =>
    if p c then ([], c :: cs)
    else
      match scanUntil p cs with
      | (a, b) => (c :: a, b)

def isNameStop (c : Char) : Bool := isWsChar c || c = '='

/-- Model of the pybtex parser's field loop on the sublanguage the
writer emits: each field is a comma, the (lowercased) field name, an
equals sign and a braced value; the entry ends with the closing
brace.  The fuel argument bounds the number of fields. -/
def parseFieldsGo : Nat → List Char → Option (List (String × String))
  | 0, _ => none
  | fuel + 1, l =>
    match dropWs l with
    | '\x7d' :: rest => if dropWs rest = [] then some [] else none
    | ',' :: rest =>
      match scanUntil isNameStop (dropWs rest) with
      | (name, afterName) =>
        if name = [] then none
        else
          match dropWs afterName with
          | '=' :: afterEq =>
            match dropWs afterEq with
            | '\x7b' :: afterBrace =>
              match scanUntil (fun c => c = '\x7d') afterBrace with
              | (value, '\x7d' :: rest2) =>
                match parseFieldsGo fuel rest2 with
                | some fields => some ((lowerStr (String.mk name), String.mk value) :: fields)
                | none => none
              | _ => none
            | _ => none
          | _ => none
    | _ => none

/-- The field names the pybtex parser diverts into person roles. -/
def isRoleName (n : String) : Bool := n = "author" || n = "editor"

/-- Model of the pybtex parser on a single written entry: the type
(lowercased) after the at sign, the key up to the first comma, then
the fields; author and editor fields become person roles, kept here as
their raw name strings. -/
def parseBibEntry (s : String) :
    Option (String × String × List (String × String) × List (String × String)) :=
  match s.data with
  | '@' :: rest =>
    match scanUntil (fun c => c = '\x7b') rest with
    | (ty, '\x7b' :: afterBrace) =>
      match scanUntil (fun c => c = ',' || c = '\n' || c = '\x7d') afterBrace with
      | (key, afterKey) =>
        match parseFieldsGo (afterKey.length + 1) afterKey with
        | some fields =>
          some (lowerStr (String.mk ty), String.mk key,
            fields.filter (fun kv => isRoleName kv.1),
            fields.filter (fun kv => !isRoleName kv.1))
        | none => none
    | _ => none
  | _ => none

def goodKeyChar (c : Char) : Bool :=
  !(c = ',' || c = '\x7b' || c = '\x7d' || c = '@' || isWsChar c)

def goodValueChar (c : Char) : Bool := !(c = '\x7b' || c = '\x7d' || c = '\n')

def goodFieldName (n : String) : Bool :=
  n ≠ "" && n.data.all (fun c => !isNameStop c && goodValueChar c) &&
    lowerStr n = n && !isRoleName n

/-- The entries the writer can serialise so that the parser model
recovers them verbatim: plain keys, lowercase non-role field names,
values without braces or newlines, and person roles whose serialised
name strings are equally plain. -/
def writableEntry (key : String) (e : Entry) : Bool :=
  key ≠ "" && key.data.all goodKeyChar &&
    e.fields.all (fun kv => goodFieldName kv.1 && kv.2.data.all goodValueChar) &&
    e.persons.all (fun rp => isRoleName rp.1 && (joinNames rp.2).data.all goodValueChar)

/-- The person roles exactly as the writer serialises them: the
nonempty roles, each paired with its names joined by the word and. -/
def personPairs (e : Entry) : List (String × String) :=
  (e.persons.filter (fun rp => !rp.2.isEmpty)).map (fun rp => (rp.1, joinNames rp.2))

/-- The single author of the worked article example. -/
def personABee : Person := ⟨["A."], [], [], ["Bee"], []⟩

/-- The article entry of the worked example in the specification. -/
def articleFoo : Entry :=
  { type := .article,
    fields := [("title", "Foo"), ("journal", "J"), ("year", "2020"), ("pages", "1-9")],
    persons := [("author", [personABee])] }

/-- The citation text the pipeline renders for the worked article
example. -/
def articleFooText : String :=
  "<strong>Foo</strong>. <br> A.&nbsp;Bee. <br> <em>J</em>, pages 1&ndash;9, 2020."

def personZz : Person := ⟨[], [], [], ["Zz"], []⟩

def personAa : Person := ⟨[], [], [], ["Aa"], []⟩

def entryZz : Entry :=
  { type := .misc, fields := [("title", "T"), ("year", "2020")],
    persons := [("author", [personZz])] }

def entryAa : Entry :=
  { type := .misc, fields := [("title", "T"), ("year", "2020")],
    persons := [("author", [personAa])] }

/-- Two entries with the same year, the alphabetically later author
first in parse order. -/
def dbEqualYears : List (String × Entry) := [("a", entryZz), ("b", entryAa)]

def entry2021 : Entry := { type := .misc, fields := [("title", "P"), ("year", "2021")], persons := [] }

def entry2019 : Entry := { type := .misc, fields := [("title", "Q"), ("year", "2019")], persons := [] }

def entryNoYear : Entry := { type := .misc, fields := [("title", "R")], persons := [] }

/-- Two entries with years and a third without one. -/
def dbMixedYears : List (String × Entry) := [("p", entry2021), ("q", entry2019), ("r", entryNoYear)]

/-- A configured generator with an empty context. -/
def genConfigured : Generator := { settings := [("PUBLICATIONS_SRC", "refs.bib")], context := [] }

/-- A generator without the PUBLICATIONS_SRC setting. -/
def genUnconfigured : Generator := { settings := [("SITENAME", "x")], context := [("drafts", [])] }

/-- The publication record the pipeline builds for the worked article
example under the key foo1. -/
def pubFoo : Pub :=
  { key := "foo1",
    year := some "2020",
    text := articleFooText,
    bibtex := "@article\x7bfoo1,\n    author = \x7bBee, A.\x7d,\n    title = \x7bFoo\x7d,\n    journal = \x7bJ\x7d,\n    year = \x7b2020\x7d,\n    pages = \x7b1-9\x7d\n\x7d\n",
    pdf := none,
    slides := none,
    poster := none,
    entrytype := none }

/-- C5: with no PUBLICATIONS_SRC setting, add_publications returns at
once: no log output, the generator (settings and context alike)
untouched, so the publications key is exactly as absent as before. -/
theorem claim5_unconfigured (parseFile : String → ParseResult) (g : Generator)
    (h : lookupStr g.settings "PUBLICATIONS_SRC" = none) :
    add_publications parseFile g = .ok (g, []) := by
  unfold add_publications
  rw [h]

theorem claim5_witness :
    lookupStr genUnconfigured.settings "PUBLICATIONS_SRC" = none ∧
      add_publications (fun _ => .ok []) genUnconfigured = .ok (genUnconfigured, []) :=
  ⟨rfl, claim5_unconfigured (fun _ => .ok []) genUnconfigured rfl⟩

/-- C6 counterexample: on a configured generator whose file parses to
zero entries, add_publications is not a no-op: it writes the
publications key, bound to the empty list, into the context. -/
theorem claim6_counterexample :
    add_publications (fun _ => .ok []) genConfigured =
      .ok ({ settings := genConfigured.settings, context := [("publications", [])] }, []) ∧
    [("publications", [])] ≠ genConfigured.context :=
  ⟨rfl, by decide⟩

/-- C6 amended: on a configured generator whose file parses to zero
entries, add_publications sets the publications context key to the
empty list (its only context modification) and logs nothing. -/
theorem claim6_amended (parseFile : String → ParseResult) (g : Generator) (path : String)
    (hs : lookupStr g.settings "PUBLICATIONS_SRC" = some path)
    (hp : parseFile path = .ok []) :
    add_publications parseFile g =
      .ok ({ g with context := setCtx g.context "publications" [] }, []) := by
  simp only [add_publications, hs, hp]
  rfl

theorem claim6_witness :
    add_publications (fun _ => .ok []) genConfigured =
      .ok ({ genConfigured with context := setCtx genConfigured.context "publications" [] }, []) :=
  claim6_amended (fun _ => .ok []) genConfigured "refs.bib" rfl rfl

/-- C7: on a parse failure, add_publications leaves the generator
untouched, raises nothing, and logs exactly one warning whose text
contains the offending path and the parser's error text. -/
theorem claim7_parse_failure (parseFile : String → ParseResult) (g : Generator)
    (path msg : String)
    (hs : lookupStr g.settings "PUBLICATIONS_SRC" = some path)
    (hp : parseFile path = .err msg) :
    add_publications parseFile g = .ok (g, [parseWarning path msg]) ∧
      path.data <:+: (parseWarning path msg).data ∧
      msg.data <:+: (parseWarning path msg).data := by
  refine ⟨?_, ?_, ?_⟩
  · simp only [add_publications, hs, hp]
  · exact ⟨"`pelican_bibtex` failed to parse file ".data, (": " ++ msg).data, by
      simp [parseWarning, String.data_append]⟩
  · exact ⟨("`pelican_bibtex` failed to parse file " ++ path ++ ": ").data, [], by
      simp [parseWarning, String.data_append]⟩

theorem claim7_witness :
    add_publications (fun _ => .err "syntax error") genConfigured =
      .ok (genConfigured, [parseWarning "refs.bib" "syntax error"]) ∧
      containsSub (parseWarning "refs.bib" "syntax error") "refs.bib" = true ∧
      containsSub (parseWarning "refs.bib" "syntax error") "syntax error" = true :=
  ⟨(claim7_parse_failure (fun _ => .err "syntax error") genConfigured
      "refs.bib" "syntax error" rfl rfl).1, by decide, by decide⟩

/-- C2 (code bug): on a database with entries of years 2021 and 2019
and a third entry without a year, the final sort compares None against
a string under Python 3 and raises TypeError, so add_publications
fails instead of producing the claimed order. -/
theorem claim2_mixed_years_crash :
    runPipeline dbMixedYears = .error .typeError ∧
      add_publications (fun _ => .ok dbMixedYears) genConfigured = .error .typeError ∧
      lookupStr entry2021.fields "year" = some "2021" ∧
      lookupStr entry2019.fields "year" = some "2019" ∧
      lookupStr entryNoYear.fields "year" = none :=
  ⟨rfl, rfl, rfl, rfl, rfl⟩

/-- C10: the eighth slot of the output tuple is the value of the
literal BibTeX field named type (absent fields give None); it is read
from the field map, never from the entry's type tag, and the record's
key is the entry's key. -/
theorem claim10_type_slot (k : String) (e : Entry) (p : Pub)
    (h : buildPub k e = .ok p) :
    p.entrytype = lookupStr e.fields "type" ∧ p.key = k := by
  unfold buildPub at h
  cases hf : formatEntry e <;> rw [hf] at h
  · cases h
  · cases hw : writeEntry k e <;> rw [hw] at h
    · cases h
    · injection h with h
      subst h
      exact ⟨rfl, rfl⟩

theorem claim10_witness :
    buildPub "foo1" articleFoo = .ok pubFoo ∧ pubFoo.entrytype = none ∧
      typeName articleFoo.type = "article" ∧
      pubFoo.entrytype = lookupStr articleFoo.fields "type" :=
  ⟨rfl, rfl, rfl, (claim10_type_slot "foo1" articleFoo pubFoo rfl).1⟩

/-- C8 counterexample: the worked article example renders with the
nonbreaking-space and en-dash entities of the HTML backend, so the
literal substrings claimed in the specification, pages 1-9 and
A. Bee, do not occur in the text. -/
theorem claim8_counterexample :
    (format_article articleFoo).map renderHtml = .ok articleFooText ∧
      containsSub articleFooText "pages 1-9" = false ∧
      containsSub articleFooText "A. Bee" = false :=
  ⟨rfl, by decide, by decide⟩

theorem fmtOk_map (g : RichText → RichText) (f : Fmt) : fmtOk (f.map g) = fmtOk f := by
  cases f <;> rfl

theorem seqFmt_isOk (l : List Fmt) : (seqFmt l).isOk = l.all fmtOk := by
  induction l with
  | nil => rfl
  | cons f fs ih =>
    cases f with
    | error e => simp [seqFmt, fmtOk, Except.isOk, Except.toBool]
    | ok t =>
      rw [List.all_cons, seqFmt]
      cases hs : seqFmt fs with
      | ok ts =>
        rw [hs] at ih
        simp [fmtOk, ← ih, Except.isOk, Except.toBool]
      | error e2 =>
        rw [hs] at ih
        simp [fmtOk, ← ih, Except.isOk, Except.toBool]

theorem fmtOk_seqMap (g : List RichText → RichText) (l : List Fmt) :
    fmtOk ((seqFmt l).map g) = l.all fmtOk := by
  rw [← seqFmt_isOk]
  cases seqFmt l <;> rfl

@[simp] theorem fmtOk_ok (t : RichText) : fmtOk (.ok t) = true := rfl

@[simp] theorem fmtOk_error (u : Unit) : fmtOk (.error u) = false := rfl

@[simp] theorem fmtOk_joinFmt (sep : RichText) (l : List Fmt) :
    fmtOk (joinFmt sep l) = l.all fmtOk := by
  rw [joinFmt]
  exact fmtOk_seqMap _ l

@[simp] theorem fmtOk_wordsFmt (l : List Fmt) : fmtOk (wordsFmt l) = l.all fmtOk := by
  rw [wordsFmt, fmtOk_joinFmt]

@[simp] theorem fmtOk_sentenceSepFmt (sep : RichText) (l : List Fmt) :
    fmtOk (sentenceSepFmt sep l) = l.all fmtOk := by
  rw [sentenceSepFmt, fmtOk_map, fmtOk_joinFmt]

@[simp] theorem fmtOk_sentenceFmt (l : List Fmt) : fmtOk (sentenceFmt l) = l.all fmtOk := by
  rw [sentenceFmt, fmtOk_sentenceSepFmt]

@[simp] theorem fmtOk_firstOfFmt (l : List Fmt) : fmtOk (firstOfFmt l) = l.all fmtOk := by
  rw [firstOfFmt]
  exact fmtOk_seqMap _ l

@[simp] theorem fmtOk_toplevelFmt (l : List Fmt) : fmtOk (toplevelFmt l) = l.all fmtOk := by
  rw [toplevelFmt, fmtOk_joinFmt]

@[simp] theorem fmtOk_optionalFmt (f : Fmt) : fmtOk (optionalFmt f) = true := by
  cases f <;> rfl

@[simp] theorem fmtOk_tagFmt (n : String) (f : Fmt) : fmtOk (tagFmt n f) = fmtOk f := by
  rw [tagFmt, fmtOk_map]

@[simp] theorem fmtOk_strFmt (s : String) : fmtOk (strFmt s) = true := rfl

@[simp] theorem fmtOk_fieldFmt (e : Entry) (n : String) :
    fmtOk (fieldFmt e n) = (lookupStr e.fields n).isSome := by
  rw [fieldFmt]
  cases lookupStr e.fields n <;> rfl

@[simp] theorem fmtOk_optionalFieldFmt (e : Entry) (n : String) :
    fmtOk (optionalFieldFmt e n) = true := by
  rw [optionalFieldFmt, fmtOk_optionalFmt]

@[simp] theorem fmtOk_pagesFmt (e : Entry) :
    fmtOk (pagesFmt e) = (lookupStr e.fields "pages").isSome := by
  rw [pagesFmt]
  cases lookupStr e.fields "pages" <;> rfl

@[simp] theorem fmtOk_dateFmt (e : Entry) :
    fmtOk (dateFmt e) = (lookupStr e.fields "year").isSome := by
  simp [dateFmt]

@[simp] theorem fmtOk_namesFmt (e : Entry) (r : String) :
    fmtOk (namesFmt e r) = (lookupRole e.persons r).isSome := by
  rw [namesFmt]
  cases lookupRole e.persons r <;> rfl

@[simp] theorem fmtOk_format_names (e : Entry) (r : String) (b : Bool) :
    fmtOk (format_names e r b) = (lookupRole e.persons r).isSome := by
  cases b <;> simp [format_names]

@[simp] theorem fmtOk_format_btitle (e : Entry) (f : String) (b : Bool) :
    fmtOk (format_btitle e f b) = (lookupStr e.fields f).isSome := by
  cases b <;> simp [format_btitle]

@[simp] theorem fmtOk_format_bold_title (e : Entry) (f : String) (b : Bool) :
    fmtOk (format_bold_title e f b) = (lookupStr e.fields f).isSome := by
  cases b <;> simp [format_bold_title]

@[simp] theorem fmtOk_hrefField (e : Entry) (n pre tp : String) :
    fmtOk (hrefField e n pre tp) = (lookupStr e.fields n).isSome := by
  rw [hrefField]
  cases lookupStr e.fields n <;> rfl

@[simp] theorem fmtOk_format_url (e : Entry) :
    fmtOk (format_url e) = (lookupStr e.fields "url").isSome := by
  simp [format_url]

@[simp] theorem fmtOk_format_web_refs (e : Entry) : fmtOk (format_web_refs e) = true := by
  simp [format_web_refs]

@[simp] theorem fmtOk_format_editor (e : Entry) (b : Bool) :
    fmtOk (format_editor e b) = (lookupRole e.persons "editor").isSome := by
  rw [format_editor]
  cases h : lookupRole e.persons "editor" <;> cases b <;> simp [namesFmt, h]

@[simp] theorem fmtOk_format_volume_and_series (e : Entry) (b : Bool) :
    fmtOk (format_volume_and_series e b) = true := by
  simp [format_volume_and_series]

@[simp] theorem fmtOk_format_aopd (e : Entry) :
    fmtOk (format_address_org_pub_date e) = (lookupStr e.fields "year").isSome := by
  simp [format_address_org_pub_date]

/-- Success of the dispatching formatter is exactly the presence of the
required fields of the entry's type. -/
theorem formatEntry_ok (e : Entry) : fmtOk (formatEntry e) = requiredOk e := by
  cases he : e.type <;>
    simp [formatEntry, he, format_article, format_inproceedings, format_techreport,
      format_misc, requiredOk, Bool.and_assoc, Bool.and_comm, Bool.and_left_comm]

theorem data_ne_of_ne_empty {v : String} (h : v ≠ "") : v.data ≠ [] := by
  intro hd
  exact h (String.ext hd)

theorem plainLen_str_pos {v : String} (h : v ≠ "") : (plainLen (.str v) != 0) = true := by
  have hd := data_ne_of_ne_empty h
  simp only [plainLen, String.length, bne_iff_ne, ne_eq, List.length_eq_zero]
  exact hd

theorem splitDashes_ne_nil (l : List Char) : splitDashes l ≠ [] := by
  induction l with
  | nil => simp [splitDashes]
  | cons c rest ih =>
    rw [splitDashes]
    by_cases hc : c = '-'
    · rw [if_pos hc]
      by_cases hd : headIsDash rest = true
      · rw [if_pos hd]
        exact ih
      · rw [if_neg hd]
        simp
    · rw [if_neg hc]
      cases hs : splitDashes rest with
      | nil => exact absurd hs ih
      | cons g gs => simp

theorem plainLen_seqR_head_le (x : RichText) (L : List RichText) :
    plainLen x ≤ plainLen (seqR (x :: L)) := by
  cases L <;> simp [seqR, plainLen]

theorem plainLen_seqR_cons_ge (x y : RichText) (L : List RichText) :
    plainLen (seqR (y :: L)) ≤ plainLen (seqR (x :: y :: L)) := by
  simp [seqR, plainLen]

theorem plainLen_intersperse_two (sep a b : RichText) (L : List RichText)
    (h : 1 ≤ plainLen sep) :
    1 ≤ plainLen (seqR (intersperseSep sep (a :: b :: L))) := by
  show 1 ≤ plainLen (seqR (a :: sep :: intersperseSep sep (b :: L)))
  calc 1 ≤ plainLen sep := h
    _ ≤ plainLen (seqR (sep :: intersperseSep sep (b :: L))) := plainLen_seqR_head_le _ _
    _ ≤ plainLen (seqR (a :: sep :: intersperseSep sep (b :: L))) := plainLen_seqR_cons_ge _ _ _

theorem headIsDash_ne_nil {l : List Char} (h : headIsDash l = true) : l ≠ [] := by
  cases l with
  | nil => simp [headIsDash] at h
  | cons c cs => simp

theorem plainLen_dashifyL (l : List Char) (h : l ≠ []) :
    1 ≤ plainLen (dashify (String.mk l)) := by
  induction l with
  | nil => cases h rfl
  | cons c rest ih =>
    rw [dashify]
    show 1 ≤ plainLen (seqR (intersperseSep (.symbol "ndash")
      ((splitDashes (c :: rest)).map (fun g => .str (String.mk g)))))
    rw [splitDashes]
    by_cases hc : c = '-'
    · rw [if_pos hc]
      by_cases hd : headIsDash rest = true
      · rw [if_pos hd]
        have := ih (headIsDash_ne_nil hd)
        rw [dashify] at this
        exact this
      · rw [if_neg hd]
        cases hs : splitDashes rest with
        | nil => exact absurd hs (splitDashes_ne_nil rest)
        | cons g gs =>
          simp only [List.map_cons]
          exact plainLen_intersperse_two _ _ _ _ (by simp [plainLen])
    · rw [if_neg hc]
      cases hs : splitDashes rest with
      | nil => exact absurd hs (splitDashes_ne_nil rest)
      | cons g gs =>
        cases gs with
        | nil =>
          simp [intersperseSep, seqR, plainLen, String.length]
        | cons g2 gs2 =>
          simp only [List.map_cons]
          exact plainLen_intersperse_two _ _ _ _ (by simp [plainLen])

theorem plainLen_dashify_ge1 {p : String} (h : p ≠ "") : 1 ≤ plainLen (dashify p) := by
  have := plainLen_dashifyL p.data (data_ne_of_ne_empty h)
  simpa using this

theorem plainLen_dashify_pos {p : String} (h : p ≠ "") :
    (plainLen (dashify p) != 0) = true := by
  have h1 := plainLen_dashify_ge1 h
  simp only [bne_iff_ne, ne_eq]
  omega

theorem optionalFmt_of_fail {f : Fmt} (h : fmtOk f = false) : optionalFmt f = .ok .empty := by
  cases f with
  | ok t => simp [fmtOk] at h
  | error e => rfl

theorem joinTexts_two (sep sep2 lastSep a b : RichText)
    (ha : (plainLen a != 0) = true) (hb : (plainLen b != 0) = true) :
    joinTexts sep sep2 lastSep [a, b] = seqR [a, sep2, b] := by
  rw [joinTexts]
  simp only [List.filter_cons, List.filter_nil, ha, hb, if_true]

theorem joinTexts_two_fst_empty (sep sep2 lastSep a b : RichText)
    (ha : (plainLen a != 0) = false) (hb : (plainLen b != 0) = true) :
    joinTexts sep sep2 lastSep [a, b] = b := by
  rw [joinTexts]
  simp only [List.filter_cons, List.filter_nil, ha, hb, if_true, if_false,
    Bool.false_eq_true]

theorem joinTexts_four_snd_empty (sep sep2 lastSep a b c d : RichText)
    (ha : (plainLen a != 0) = true) (hb : (plainLen b != 0) = false)
    (hc : (plainLen c != 0) = true) (hd : (plainLen d != 0) = true) :
    joinTexts sep sep2 lastSep [a, b, c, d] =
      seqR [seqR (intersperseSep sep [a, c]), lastSep, d] := by
  rw [joinTexts]
  simp only [List.filter_cons, List.filter_nil, ha, hb, hc, hd, if_true, if_false,
    Bool.false_eq_true]
  rfl

theorem joinTexts_four_all (sep sep2 lastSep a b c d : RichText)
    (ha : (plainLen a != 0) = true) (hb : (plainLen b != 0) = true)
    (hc : (plainLen c != 0) = true) (hd : (plainLen d != 0) = true) :
    joinTexts sep sep2 lastSep [a, b, c, d] =
      seqR [seqR (intersperseSep sep [a, b, c]), lastSep, d] := by
  rw [joinTexts]
  simp only [List.filter_cons, List.filter_nil, ha, hb, hc, hd, if_true]
  rfl

theorem firstNonEmpty_two_snd (a b : RichText)
    (ha : (plainLen a != 0) = false) (hb : (plainLen b != 0) = true) :
    firstNonEmpty [a, b] = b := by
  rw [firstNonEmpty, ha]
  rw [firstNonEmpty, hb]
  rfl

theorem firstNonEmpty_two_fst (a b : RichText) (ha : (plainLen a != 0) = true) :
    firstNonEmpty [a, b] = a := by
  rw [firstNonEmpty, ha]
  rfl

theorem volumePages_no_pages (e : Entry)
    (hp : lookupStr e.fields "pages" = none) :
    optionalFmt (volumeAndPagesFmt e) = .ok .empty := by
  apply optionalFmt_of_fail
  simp [volumeAndPagesFmt, hp]

theorem volumePages_pages_only (e : Entry) (p : String)
    (hv : lookupStr e.fields "volume" = none)
    (hp : lookupStr e.fields "pages" = some p)
    (hpne : p ≠ "") :
    (optionalFmt (volumeAndPagesFmt e)).map renderHtml =
      .ok ("pages " ++ renderHtml (dashify p)) := by
  have h1 : fieldFmt e "volume" = .error () := by rw [fieldFmt, hv]
  have h3 : pagesFmt e = .ok (dashify p) := by rw [pagesFmt, hp]
  have hpd := plainLen_dashify_pos hpne
  rw [volumeAndPagesFmt, h1, h3]
  have hW : wordsFmt [strFmt "pages", .ok (dashify p)] =
      .ok (seqR [.str "pages", .str " ", dashify p]) := by
    show (Except.ok (joinTexts (.str " ") (.str " ") (.str " ") [.str "pages", dashify p]) : Fmt) = _
    rw [joinTexts_two _ _ _ _ _ (by decide) hpd]
  rw [hW]
  show (Except.ok (firstNonEmpty [.empty, seqR [.str "pages", .str " ", dashify p]])).map renderHtml = _
  rw [firstNonEmpty_two_snd _ _ (by decide) (by
    have := plainLen_dashify_ge1 hpne
    simp only [seqR, plainLen, bne_iff_ne, ne_eq]
    omega)]
  rfl

theorem volumePages_vol_pages (e : Entry) (v p : String)
    (hv : lookupStr e.fields "volume" = some v)
    (hn : lookupStr e.fields "number" = none)
    (hp : lookupStr e.fields "pages" = some p)
    (hvne : v ≠ "") (hpne : p ≠ "") :
    (optionalFmt (volumeAndPagesFmt e)).map renderHtml =
      .ok (escapeHtml v ++ ":" ++ renderHtml (dashify p)) := by
  have h1 : fieldFmt e "volume" = .ok (.str v) := by rw [fieldFmt, hv]
  have h2 : fieldFmt e "number" = .error () := by rw [fieldFmt, hn]
  have h3 : pagesFmt e = .ok (dashify p) := by rw [pagesFmt, hp]
  have hpd := plainLen_dashify_pos hpne
  have hvd := plainLen_str_pos hvne
  rw [volumeAndPagesFmt, h1, h2, h3]
  have hInner : joinFmt (.str "")
      [.ok (.str v), optionalFmt (joinFmt (.str "") [strFmt "(", .error (), strFmt ")"]),
        strFmt ":", .ok (dashify p)] =
      .ok (seqR [seqR (intersperseSep (.str "") [.str v, .str ":"]), .str "", dashify p]) := by
    show (Except.ok (joinTexts (.str "") (.str "") (.str "")
      [.str v, .empty, .str ":", dashify p]) : Fmt) = _
    rw [joinTexts_four_snd_empty _ _ _ _ _ _ _ hvd (by decide) (by decide) hpd]
  rw [hInner]
  have hW : wordsFmt [strFmt "pages", .ok (dashify p)] =
      .ok (joinTexts (.str " ") (.str " ") (.str " ") [.str "pages", dashify p]) := rfl
  rw [hW]
  show (Except.ok (firstNonEmpty
    [seqR [seqR (intersperseSep (.str "") [.str v, .str ":"]), .str "", dashify p],
      joinTexts (.str " ") (.str " ") (.str " ") [.str "pages", dashify p]])).map renderHtml = _
  rw [firstNonEmpty_two_fst _ _ (by
    simp only [intersperseSep, seqR, plainLen, bne_iff_ne, ne_eq,
      show String.length ":" = 1 from rfl]
    omega)]
  simp only [Except.map, Except.ok.injEq]
  apply String.ext
  simp only [renderHtml, seqR, intersperseSep, String.data_append, List.append_assoc,
    List.nil_append, List.append_nil,
    show escapeHtml "" = "" from rfl, show escapeHtml ":" = ":" from rfl,
    show ("" : String).data = [] from rfl]

theorem volumePages_vol_num_pages (e : Entry) (v n p : String)
    (hv : lookupStr e.fields "volume" = some v)
    (hn : lookupStr e.fields "number" = some n)
    (hp : lookupStr e.fields "pages" = some p)
    (hvne : v ≠ "") (hnne : n ≠ "") (hpne : p ≠ "") :
    (optionalFmt (volumeAndPagesFmt e)).map renderHtml =
      .ok (escapeHtml v ++ "(" ++ escapeHtml n ++ ")" ++ ":" ++ renderHtml (dashify p)) := by
  have h1 : fieldFmt e "volume" = .ok (.str v) := by rw [fieldFmt, hv]
  have h2 : fieldFmt e "number" = .ok (.str n) := by rw [fieldFmt, hn]
  have h3 : pagesFmt e = .ok (dashify p) := by rw [pagesFmt, hp]
  have hpd := plainLen_dashify_pos hpne
  have hvd := plainLen_str_pos hvne
  have hnd := plainLen_str_pos hnne
  rw [volumeAndPagesFmt, h1, h2, h3]
  have hNum : optionalFmt (joinFmt (.str "") [strFmt "(", .ok (.str n), strFmt ")"]) =
      .ok (seqR [seqR (intersperseSep (.str "") [.str "(", .str n]), .str "", .str ")"]) := by
    show (Except.ok (joinTexts (.str "") (.str "") (.str "")
      [.str "(", .str n, .str ")"]) : Fmt) = _
    rw [joinTexts]
    simp only [List.filter_cons, List.filter_nil, hnd, if_true,
      show ((plainLen (.str "(") != 0) = true) from by decide,
      show ((plainLen (.str ")") != 0) = true) from by decide]
    rfl
  rw [hNum]
  have hNumNe : (plainLen (seqR [seqR (intersperseSep (.str "") [.str "(", .str n]),
      .str "", .str ")"]) != 0) = true := by
    simp only [intersperseSep, seqR, plainLen, bne_iff_ne, ne_eq,
      show String.length "(" = 1 from rfl]
    omega
  have hInner : joinFmt (.str "")
      [.ok (.str v),
        .ok (seqR [seqR (intersperseSep (.str "") [.str "(", .str n]), .str "", .str ")"]),
        strFmt ":", .ok (dashify p)] =
      .ok (seqR [seqR (intersperseSep (.str "")
        [.str v, seqR [seqR (intersperseSep (.str "") [.str "(", .str n]), .str "", .str ")"],
          .str ":"]), .str "", dashify p]) := by
    show (Except.ok (joinTexts (.str "") (.str "") (.str "")
      [.str v, seqR [seqR (intersperseSep (.str "") [.str "(", .str n]), .str "", .str ")"],
        .str ":", dashify p]) : Fmt) = _
    rw [joinTexts_four_all _ _ _ _ _ _ _ hvd hNumNe (by decide) hpd]
  rw [hInner]
  show (Except.ok (firstNonEmpty
    [seqR [seqR (intersperseSep (.str "")
        [.str v, seqR [seqR (intersperseSep (.str "") [.str "(", .str n]), .str "", .str ")"],
          .str ":"]), .str "", dashify p],
      joinTexts (.str " ") (.str " ") (.str " ") [.str "pages", dashify p]])).map renderHtml = _
  rw [firstNonEmpty_two_fst _ _ (by
    simp only [intersperseSep, seqR, plainLen, bne_iff_ne, ne_eq,
      show String.length ":" = 1 from rfl]
    omega)]
  simp only [Except.map, Except.ok.injEq]
  apply String.ext
  simp only [renderHtml, seqR, intersperseSep, String.data_append, List.append_assoc,
    List.nil_append, List.append_nil,
    show escapeHtml "" = "" from rfl, show escapeHtml ":" = ":" from rfl,
    show escapeHtml "(" = "(" from rfl, show escapeHtml ")" = ")" from rfl,
    show ("" : String).data = [] from rfl]

/-- C8 amended: the volume/pages clause follows first-available
priority over candidates whose required fields are all present: with
volume and pages it renders as volume, optional parenthesised number,
colon, pages; otherwise with pages alone as the word pages followed by
the value; with pages missing the whole clause is omitted without
error.  The HTML backend renders page-range dashes as the en-dash
entity and ties the short abbreviated first name with the
nonbreaking-space entity, so the worked example's text contains
pages 1&ndash;9 and A.&nbsp;Bee rather than the claimed literals,
alongside the bolded title, the italic journal and the year, with no
volume/number clause (no colon) present. -/
theorem claim8_amended :
    (∀ e : Entry, lookupStr e.fields "pages" = none →
      optionalFmt (volumeAndPagesFmt e) = .ok .empty) ∧
    (∀ (e : Entry) (p : String), lookupStr e.fields "volume" = none →
      lookupStr e.fields "pages" = some p → p ≠ "" →
      (optionalFmt (volumeAndPagesFmt e)).map renderHtml =
        .ok ("pages " ++ renderHtml (dashify p))) ∧
    (∀ (e : Entry) (v p : String), lookupStr e.fields "volume" = some v →
      lookupStr e.fields "number" = none → lookupStr e.fields "pages" = some p →
      v ≠ "" → p ≠ "" →
      (optionalFmt (volumeAndPagesFmt e)).map renderHtml =
        .ok (escapeHtml v ++ ":" ++ renderHtml (dashify p))) ∧
    (∀ (e : Entry) (v n p : String), lookupStr e.fields "volume" = some v →
      lookupStr e.fields "number" = some n → lookupStr e.fields "pages" = some p →
      v ≠ "" → n ≠ "" → p ≠ "" →
      (optionalFmt (volumeAndPagesFmt e)).map renderHtml =
        .ok (escapeHtml v ++ "(" ++ escapeHtml n ++ ")" ++ ":" ++ renderHtml (dashify p))) ∧
    ((format_article articleFoo).map renderHtml = .ok articleFooText ∧
      containsSub articleFooText "<strong>Foo</strong>" = true ∧
      containsSub articleFooText "A.&nbsp;Bee" = true ∧
      containsSub articleFooText "<em>J</em>" = true ∧
      containsSub articleFooText "pages 1&ndash;9" = true ∧
      containsSub articleFooText "2020" = true ∧
      containsSub articleFooText ":" = false) :=
  ⟨fun e hp => volumePages_no_pages e hp,
   fun e p hv hp hpne => volumePages_pages_only e p hv hp hpne,
   fun e v p hv hn hp hvne hpne => volumePages_vol_pages e v p hv hn hp hvne hpne,
   fun e v n p hv hn hp h1 h2 h3 => volumePages_vol_num_pages e v n p hv hn hp h1 h2 h3,
   rfl, by decide, by decide, by decide, by decide, by decide, by decide⟩

theorem claim8_witness :
    (optionalFmt (volumeAndPagesFmt articleFoo)).map renderHtml =
      .ok ("pages " ++ renderHtml (dashify "1-9")) ∧
    renderHtml (dashify "1-9") = "1&ndash;9" :=
  ⟨claim8_amended.2.1 articleFoo "1-9" rfl rfl (by decide), rfl⟩

@[simp] theorem removeField_type (e : Entry) (f : String) : (removeField e f).type = e.type := rfl

@[simp] theorem removeField_persons (e : Entry) (f : String) :
    (removeField e f).persons = e.persons := rfl

@[simp] theorem removeRole_type (e : Entry) (r : String) : (removeRole e r).type = e.type := rfl

@[simp] theorem removeRole_fields (e : Entry) (r : String) :
    (removeRole e r).fields = e.fields := rfl

theorem lookupStr_filter (fields : List (String × String)) (f name : String) :
    lookupStr (fields.filter (fun kv => kv.1 != f)) name =
      if name = f then none else lookupStr fields name := by
  induction fields with
  | nil => by_cases h : name = f <;> simp [lookupStr, h]
  | cons kv rest ih =>
    obtain ⟨k, v⟩ := kv
    by_cases hnf : name = f
    · subst hnf
      by_cases hk : k = name
      · subst hk
        simp [List.filter_cons, ih]
      · simp [List.filter_cons, hk, ih, lookupStr]
    · by_cases hk : k = f
      · subst hk
        simp [List.filter_cons, lookupStr, ih, hnf, Ne.symm hnf]
      · by_cases hkn : k = name
        · subst hkn
          simp [List.filter_cons, hk, lookupStr, hnf]
        · simp [List.filter_cons, hk, hkn, lookupStr, ih, hnf]

theorem lookupRole_filter (persons : List (String × List Person)) (r name : String) :
    lookupRole (persons.filter (fun rp => rp.1 != r)) name =
      if name = r then none else lookupRole persons name := by
  induction persons with
  | nil => by_cases h : name = r <;> simp [lookupRole, h]
  | cons kv rest ih =>
    obtain ⟨k, v⟩ := kv
    by_cases hnf : name = r
    · subst hnf
      by_cases hk : k = name
      · subst hk
        simp [List.filter_cons, ih]
      · simp [List.filter_cons, hk, ih, lookupRole]
    · by_cases hk : k = r
      · subst hk
        simp [List.filter_cons, lookupRole, ih, hnf, Ne.symm hnf]
      · by_cases hkn : k = name
        · subst hkn
          simp [List.filter_cons, hk, lookupRole, hnf]
        · simp [List.filter_cons, hk, hkn, lookupRole, ih, hnf]

theorem all_filter_of_all {α : Type} (p q : α → Bool) (l : List α) (h : l.all p = true) :
    (l.filter q).all p = true := by
  induction l with
  | nil => rfl
  | cons a l ih =>
    rw [List.all_cons] at h
    by_cases hq : q a = true <;>
      simp [List.filter_cons, hq, List.all_cons,
        (Bool.and_eq_true _ _).mp h |>.1, ih ((Bool.and_eq_true _ _).mp h).2]

theorem writeEntry_isOk (k : String) (e : Entry) :
    (writeEntry k e).isOk =
      ((e.persons.all (fun rp => rp.2.isEmpty || balancedValue (joinNames rp.2))) &&
        (e.fields.all (fun kv => balancedValue kv.2))) := by
  rw [writeEntry]
  by_cases h : ((e.persons.all (fun rp => rp.2.isEmpty || balancedValue (joinNames rp.2))) &&
      (e.fields.all (fun kv => balancedValue kv.2))) = true
  · rw [if_pos h, h]
    rfl
  · rw [if_neg h]
    simp only [Bool.not_eq_true] at h
    rw [h]
    rfl

/-- C4: removing any of the optional fields pdf, slides, poster, note,
number, series (or the editor role) never turns a succeeding run into
a failing one: formatting success is unchanged and the writer still
succeeds; and the pdf, slides and poster slots of the output tuple are
exactly the field lookups, hence the absent marker when missing. -/
theorem claim4_optional_fields (e : Entry) (k : String) :
    (∀ f, f ∈ (["pdf", "slides", "poster", "note", "number", "series"] : List String) →
      fmtOk (formatEntry (removeField e f)) = fmtOk (formatEntry e) ∧
      ((writeEntry k e).isOk = true → (writeEntry k (removeField e f)).isOk = true)) ∧
    (fmtOk (formatEntry (removeRole e "editor")) = fmtOk (formatEntry e) ∧
      ((writeEntry k e).isOk = true → (writeEntry k (removeRole e "editor")).isOk = true)) ∧
    (∀ p : Pub, buildPub k e = .ok p →
      p.pdf = lookupStr e.fields "pdf" ∧ p.slides = lookupStr e.fields "slides" ∧
        p.poster = lookupStr e.fields "poster") := by
  refine ⟨?_, ⟨?_, ?_⟩, ?_⟩
  · intro f hf
    constructor
    · rw [formatEntry_ok, formatEntry_ok]
      have hfield := lookupStr_filter e.fields f
      fin_cases hf <;>
        cases he : e.type <;>
          simp [requiredOk, removeField, he, hfield]
    · intro hw
      rw [writeEntry_isOk] at hw ⊢
      rw [Bool.and_eq_true] at hw
      rw [removeField_persons, Bool.and_eq_true]
      exact ⟨hw.1, all_filter_of_all _ _ _ hw.2⟩
  · rw [formatEntry_ok, formatEntry_ok]
    have hrole := lookupRole_filter e.persons "editor"
    cases he : e.type <;> simp [requiredOk, removeRole, he, hrole]
  · intro hw
    rw [writeEntry_isOk] at hw ⊢
    rw [Bool.and_eq_true] at hw
    rw [removeRole_fields, Bool.and_eq_true]
    exact ⟨all_filter_of_all _ _ _ hw.1, hw.2⟩
  · intro p h
    unfold buildPub at h
    cases hf : formatEntry e <;> rw [hf] at h
    · cases h
    · cases hwr : writeEntry k e <;> rw [hwr] at h
      · cases h
      · injection h with h
        subst h
        exact ⟨rfl, rfl, rfl⟩

theorem claim4_witness :
    fmtOk (formatEntry (removeField articleFoo "note")) = fmtOk (formatEntry articleFoo) ∧
      pubFoo.pdf = lookupStr articleFoo.fields "pdf" ∧ pubFoo.pdf = none :=
  ⟨((claim4_optional_fields articleFoo "foo1").1 "note" (by simp)).1,
   ((claim4_optional_fields articleFoo "foo1").2.2 pubFoo rfl).1, rfl⟩

theorem charLt_iff (a b : Char) : charLtB a b = true ↔ a.toNat < b.toNat := by
  rw [charLtB]
  exact iff_of_eq Nat.blt_eq

theorem charLt_false_iff (a b : Char) : charLtB a b = false ↔ ¬ a.toNat < b.toNat := by
  rw [← charLt_iff a b]
  cases charLtB a b <;> simp

theorem charLtB_conn {a b : Char} (h1 : charLtB a b = false) (h2 : charLtB b a = false) :
    a = b := by
  rw [charLt_false_iff] at h1 h2
  have h3 : a.toNat = b.toNat := by omega
  exact Char.ext (UInt32.ext h3)

theorem charLtB_trans {a b c : Char} (h1 : charLtB a b = true) (h2 : charLtB b c = true) :
    charLtB a c = true := by
  rw [charLt_iff] at h1 h2 ⊢
  omega

theorem strLtL_irrefl (l : List Char) : strLtL l l = false := by
  induction l with
  | nil => rfl
  | cons c cs ih =>
    rw [strLtL]
    have hcc : charLtB c c = false := by
      rw [charLt_false_iff]
      omega
    rw [hcc]
    simp [ih]

theorem strLtL_trans (a : List Char) : ∀ (b c : List Char),
    strLtL a b = true → strLtL b c = true → strLtL a c = true := by
  induction a with
  | nil =>
    intro b c h1 h2
    cases b with
    | nil => simp [strLtL] at h1
    | cons y ys =>
      cases c with
      | nil => simp [strLtL] at h2
      | cons z zs => rfl
  | cons x xs ih =>
    intro b c h1 h2
    cases b with
    | nil => simp [strLtL] at h1
    | cons y ys =>
      cases c with
      | nil => simp [strLtL] at h2
      | cons z zs =>
        rw [strLtL] at h1 h2 ⊢
        by_cases hxy : charLtB x y = true
        · by_cases hyz : charLtB y z = true
          · rw [if_pos (charLtB_trans hxy hyz)]
          · rw [if_neg (by simp [hyz])] at h2
            by_cases hzy : charLtB z y = true
            · rw [if_pos hzy] at h2
              cases h2
            · have hyz2 : y = z :=
                charLtB_conn (Bool.not_eq_true _ ▸ hyz) (Bool.not_eq_true _ ▸ hzy)
              subst hyz2
              rw [if_pos hxy]
        · rw [if_neg hxy] at h1
          by_cases hyx : charLtB y x = true
          · rw [if_pos hyx] at h1
            cases h1
          · have hxy2 : x = y :=
              charLtB_conn (Bool.not_eq_true _ ▸ hxy) (Bool.not_eq_true _ ▸ hyx)
            subst hxy2
            rw [if_neg hyx] at h1
            by_cases hxz : charLtB x z = true
            · rw [if_pos hxz]
            · rw [if_neg hxz] at h2 ⊢
              by_cases hzx : charLtB z x = true
              · rw [if_pos hzx] at h2
                cases h2
              · rw [if_neg hzx] at h2 ⊢
                exact ih ys zs h1 h2

theorem strLtL_conn (a : List Char) : ∀ (b : List Char),
    strLtL a b = false → strLtL b a = false → a = b := by
  induction a with
  | nil =>
    intro b h1 _
    cases b with
    | nil => rfl
    | cons y ys => simp [strLtL] at h1
  | cons x xs ih =>
    intro b h1 h2
    cases b with
    | nil => simp [strLtL] at h2
    | cons y ys =>
      rw [strLtL] at h1 h2
      by_cases hxy : charLtB x y = true
      · rw [if_pos hxy] at h1
        cases h1
      · by_cases hyx : charLtB y x = true
        · rw [if_pos hyx] at h2
          cases h2
        · have hxy2 : x = y :=
            charLtB_conn (Bool.not_eq_true _ ▸ hxy) (Bool.not_eq_true _ ▸ hyx)
          subst hxy2
          rw [if_neg hxy, if_neg (by simp [hyx])] at h1 h2
          rw [ih ys h1 h2]

theorem strLtL_asymm {a b : List Char} (h : strLtL a b = true) : strLtL b a = false := by
  cases h2 : strLtL b a
  · rfl
  · have := strLtL_trans a b a h h2
    rw [strLtL_irrefl] at this
    cases this

theorem strLtB_trans {a b c : String} (h1 : strLtB a b = true) (h2 : strLtB b c = true) :
    strLtB a c = true :=
  strLtL_trans a.data b.data c.data h1 h2

theorem strLtB_asymm {a b : String} (h : strLtB a b = true) : strLtB b a = false :=
  strLtL_asymm h

theorem strLtB_irrefl (a : String) : strLtB a a = false := strLtL_irrefl a.data

theorem strLtB_conn {a b : String} (h1 : strLtB a b = false) (h2 : strLtB b a = false) :
    a = b :=
  String.ext (strLtL_conn a.data b.data h1 h2)

theorem strLtB_false_trans {a b c : String} (h1 : strLtB b a = false)
    (h2 : strLtB c b = false) : strLtB c a = false := by
  cases hca : strLtB c a
  · rfl
  · exfalso
    by_cases hbc : strLtB b c = true
    · have hba := strLtB_trans hbc hca
      rw [h1] at hba
      cases hba
    · have hcb : c = b := strLtB_conn h2 (Bool.not_eq_true _ ▸ hbc)
      rw [hcb] at hca
      rw [h1] at hca
      cases hca

theorem keyLtB_iff (a b : String × String × String) :
    keyLtB a b = true ↔
      strLtB a.1 b.1 = true ∨ (a.1 = b.1 ∧ (strLtB a.2.1 b.2.1 = true ∨
        (a.2.1 = b.2.1 ∧ strLtB a.2.2 b.2.2 = true))) := by
  rw [keyLtB]
  by_cases h1 : strLtB a.1 b.1 = true
  · simp [h1]
  · rw [if_neg h1]
    by_cases h1r : strLtB b.1 a.1 = true
    · rw [if_pos h1r]
      simp only [Bool.false_eq_true, false_iff]
      intro hcon
      rcases hcon with hlt | ⟨heq, _⟩
      · exact h1 hlt
      · rw [← heq, strLtB_irrefl] at h1r
        exact Bool.false_ne_true h1r
    · have heq : a.1 = b.1 :=
        strLtB_conn (Bool.not_eq_true _ ▸ h1) (Bool.not_eq_true _ ▸ h1r)
      rw [if_neg h1r]
      by_cases h2 : strLtB a.2.1 b.2.1 = true
      · simp [h2, heq]
      · rw [if_neg h2]
        by_cases h2r : strLtB b.2.1 a.2.1 = true
        · rw [if_pos h2r]
          simp only [Bool.false_eq_true, false_iff]
          intro hcon
          rcases hcon with hlt | ⟨_, hlt2 | ⟨heq2, _⟩⟩
          · exact h1 hlt
          · exact h2 hlt2
          · rw [← heq2, strLtB_irrefl] at h2r
            exact Bool.false_ne_true h2r
        · have heq2 : a.2.1 = b.2.1 :=
            strLtB_conn (Bool.not_eq_true _ ▸ h2) (Bool.not_eq_true _ ▸ h2r)
          rw [if_neg h2r]
          simp [heq, heq2, h2, strLtB_irrefl]

theorem keyLtB_irrefl (a : String × String × String) : keyLtB a a = false := by
  rw [keyLtB]
  simp [strLtB_irrefl]

theorem keyLtB_trans {a b c : String × String × String}
    (h1 : keyLtB a b = true) (h2 : keyLtB b c = true) : keyLtB a c = true := by
  rw [keyLtB_iff] at h1 h2 ⊢
  rcases h1 with h1 | ⟨e1, h1⟩
  · rcases h2 with h2 | ⟨e2, _⟩
    · exact Or.inl (strLtB_trans h1 h2)
    · rw [← e2]
      exact Or.inl h1
  · rcases h2 with h2 | ⟨e2, h2⟩
    · rw [e1]
      exact Or.inl h2
    · refine Or.inr ⟨e1.trans e2, ?_⟩
      rcases h1 with h1 | ⟨e1b, h1⟩
      · rcases h2 with h2 | ⟨e2b, _⟩
        · exact Or.inl (strLtB_trans h1 h2)
        · rw [← e2b]
          exact Or.inl h1
      · rcases h2 with h2 | ⟨e2b, h2⟩
        · rw [e1b]
          exact Or.inl h2
        · exact Or.inr ⟨e1b.trans e2b, strLtB_trans h1 h2⟩

theorem keyLtB_conn {a b : String × String × String}
    (h1 : keyLtB a b = false) (h2 : keyLtB b a = false) : a = b := by
  have hn1 : ¬ (keyLtB a b = true) := by simp [h1]
  have hn2 : ¬ (keyLtB b a = true) := by simp [h2]
  rw [keyLtB_iff] at hn1 hn2
  have e1 : a.1 = b.1 := by
    by_cases c1 : strLtB a.1 b.1 = true
    · exact absurd (Or.inl c1) hn1
    · by_cases c2 : strLtB b.1 a.1 = true
      · exact absurd (Or.inl c2) hn2
      · exact strLtB_conn (Bool.not_eq_true _ ▸ c1) (Bool.not_eq_true _ ▸ c2)
  have e2 : a.2.1 = b.2.1 := by
    by_cases c1 : strLtB a.2.1 b.2.1 = true
    · exact absurd (Or.inr ⟨e1, Or.inl c1⟩) hn1
    · by_cases c2 : strLtB b.2.1 a.2.1 = true
      · exact absurd (Or.inr ⟨e1.symm, Or.inl c2⟩) hn2
      · exact strLtB_conn (Bool.not_eq_true _ ▸ c1) (Bool.not_eq_true _ ▸ c2)
  have e3 : a.2.2 = b.2.2 := by
    by_cases c1 : strLtB a.2.2 b.2.2 = true
    · exact absurd (Or.inr ⟨e1, Or.inr ⟨e2, c1⟩⟩) hn1
    · by_cases c2 : strLtB b.2.2 a.2.2 = true
      · exact absurd (Or.inr ⟨e1.symm, Or.inr ⟨e2.symm, c2⟩⟩) hn2
      · exact strLtB_conn (Bool.not_eq_true _ ▸ c1) (Bool.not_eq_true _ ▸ c2)
  exact Prod.ext e1 (Prod.ext e2 e3)

theorem keyLtB_asymm {a b : String × String × String} (h : keyLtB a b = true) :
    keyLtB b a = false := by
  cases h2 : keyLtB b a
  · rfl
  · have := keyLtB_trans h h2
    rw [keyLtB_irrefl] at this
    cases this

theorem keyLtB_false_trans {a b c : String × String × String}
    (h1 : keyLtB b a = false) (h2 : keyLtB c b = false) : keyLtB c a = false := by
  cases hca : keyLtB c a
  · rfl
  · exfalso
    by_cases hbc : keyLtB b c = true
    · have hba := keyLtB_trans hbc hca
      rw [h1] at hba
      cases hba
    · have hcb : c = b := keyLtB_conn h2 (Bool.not_eq_true _ ▸ hbc)
      rw [hcb] at hca
      rw [h1] at hca
      cases hca

theorem insAsc_perm (x : String × Entry) (l : List (String × Entry)) :
    (insAsc x l).Perm (x :: l) := by
  induction l with
  | nil => exact List.Perm.refl _
  | cons y ys ih =>
    rw [insAsc]
    by_cases h : keyLtB (sortingKey y.2) (sortingKey x.2) = true
    · rw [if_pos h]
      exact (ih.cons y).trans (List.Perm.swap x y ys)
    · rw [if_neg h]

theorem sortAyt_perm (db : List (String × Entry)) : (sortAyt db).Perm db := by
  induction db with
  | nil => exact List.Perm.refl _
  | cons d ds ih =>
    show (insAsc d (sortAyt ds)).Perm (d :: ds)
    exact (insAsc_perm d (sortAyt ds)).trans (ih.cons d)

theorem insDesc_perm (x : Pub) (l : List Pub) : (insDesc x l).Perm (x :: l) := by
  induction l with
  | nil => exact List.Perm.refl _
  | cons y ys ih =>
    rw [insDesc]
    by_cases h : strLtB (pubYearKey x) (pubYearKey y) = true
    · rw [if_pos h]
      exact (ih.cons y).trans (List.Perm.swap x y ys)
    · rw [if_neg h]

theorem sortYearDesc_perm (l : List Pub) : (sortYearDesc l).Perm l := by
  induction l with
  | nil => exact List.Perm.refl _
  | cons x xs ih =>
    show (insDesc x (sortYearDesc xs)).Perm (x :: xs)
    exact (insDesc_perm x (sortYearDesc xs)).trans (ih.cons x)

theorem insAsc_pairwise (x : String × Entry) (l : List (String × Entry))
    (h : List.Pairwise (fun u v => keyLtB (sortingKey v.2) (sortingKey u.2) = false) l) :
    List.Pairwise (fun u v => keyLtB (sortingKey v.2) (sortingKey u.2) = false)
      (insAsc x l) := by
  induction l with
  | nil =>
    refine List.Pairwise.cons ?_ List.Pairwise.nil
    intro z hz
    cases hz
  | cons y ys ih =>
    rw [insAsc]
    rcases h with _ | ⟨hy, hys⟩
    by_cases hc : keyLtB (sortingKey y.2) (sortingKey x.2) = true
    · rw [if_pos hc]
      refine List.Pairwise.cons ?_ (ih hys)
      intro z hz
      have hz2 := (insAsc_perm x ys).mem_iff.mp hz
      cases hz2 with
      | head => exact keyLtB_asymm hc
      | tail _ hz3 => exact hy z hz3
    · rw [if_neg hc]
      refine List.Pairwise.cons ?_ (List.Pairwise.cons hy hys)
      intro z hz
      cases hz with
      | head => exact Bool.not_eq_true _ ▸ hc
      | tail _ hz3 => exact keyLtB_false_trans (Bool.not_eq_true _ ▸ hc) (hy z hz3)

theorem sortAyt_pairwise (db : List (String × Entry)) :
    List.Pairwise (fun u v => keyLtB (sortingKey v.2) (sortingKey u.2) = false)
      (sortAyt db) := by
  induction db with
  | nil => exact List.Pairwise.nil
  | cons d ds ih =>
    show List.Pairwise _ (insAsc d (sortAyt ds))
    exact insAsc_pairwise d (sortAyt ds) ih

theorem insDesc_pairwise (R : Pub → Pub → Prop) (x : Pub) (l : List Pub)
    (hx : ∀ y ∈ l, R x y)
    (hl : List.Pairwise (fun a b => strLtB (pubYearKey b) (pubYearKey a) = true ∨
      (pubYearKey a = pubYearKey b ∧ R a b)) l) :
    List.Pairwise (fun a b => strLtB (pubYearKey b) (pubYearKey a) = true ∨
      (pubYearKey a = pubYearKey b ∧ R a b)) (insDesc x l) := by
  induction l with
  | nil =>
    refine List.Pairwise.cons ?_ List.Pairwise.nil
    intro z hz
    cases hz
  | cons y ys ih =>
    rw [insDesc]
    rcases hl with _ | ⟨hy, hys⟩
    by_cases hc : strLtB (pubYearKey x) (pubYearKey y) = true
    · rw [if_pos hc]
      refine List.Pairwise.cons ?_
        (ih (fun z hz => hx z (List.mem_cons_of_mem y hz)) hys)
      intro z hz
      have hz2 := (insDesc_perm x ys).mem_iff.mp hz
      cases hz2 with
      | head => exact Or.inl hc
      | tail _ hz3 => exact hy z hz3
    · rw [if_neg hc]
      have hcf : strLtB (pubYearKey x) (pubYearKey y) = false := Bool.not_eq_true _ ▸ hc
      refine List.Pairwise.cons ?_ (List.Pairwise.cons hy hys)
      intro z hz
      cases hz with
      | head =>
        by_cases hyx : strLtB (pubYearKey y) (pubYearKey x) = true
        · exact Or.inl hyx
        · exact Or.inr ⟨strLtB_conn hcf (Bool.not_eq_true _ ▸ hyx),
            hx y (List.mem_cons_self y ys)⟩
      | tail _ hz3 =>
        rcases hy z hz3 with hlt | ⟨heq, _⟩
        · by_cases hyx : strLtB (pubYearKey y) (pubYearKey x) = true
          · exact Or.inl (strLtB_trans hlt hyx)
          · have hxy : pubYearKey x = pubYearKey y :=
              strLtB_conn hcf (Bool.not_eq_true _ ▸ hyx)
            rw [hxy]
            exact Or.inl hlt
        · by_cases hyx : strLtB (pubYearKey y) (pubYearKey x) = true
          · rw [heq] at hyx
            exact Or.inl hyx
          · have hxy : pubYearKey x = pubYearKey y :=
              strLtB_conn hcf (Bool.not_eq_true _ ▸ hyx)
            exact Or.inr ⟨hxy.trans heq, hx z (List.mem_cons_of_mem y hz3)⟩

theorem sortYearDesc_pairwise (R : Pub → Pub → Prop) (l : List Pub)
    (h : List.Pairwise R l) :
    List.Pairwise (fun a b => strLtB (pubYearKey b) (pubYearKey a) = true ∨
      (pubYearKey a = pubYearKey b ∧ R a b)) (sortYearDesc l) := by
  induction l with
  | nil => exact List.Pairwise.nil
  | cons x xs ih =>
    rcases h with _ | ⟨hx, hxs⟩
    show List.Pairwise _ (insDesc x (sortYearDesc xs))
    exact insDesc_pairwise R x (sortYearDesc xs)
      (fun y hy => hx y ((sortYearDesc_perm xs).mem_iff.mp hy)) (ih hxs)

theorem buildPub_ok_eqs {k : String} {e : Entry} {p : Pub} (h : buildPub k e = .ok p) :
    p.key = k ∧ p.year = lookupStr e.fields "year" := by
  unfold buildPub at h
  cases hf : formatEntry e <;> rw [hf] at h
  · cases h
  · cases hw : writeEntry k e <;> rw [hw] at h
    · cases h
    · injection h with h
      subst h
      exact ⟨rfl, rfl⟩

theorem buildPubs_forall2 : ∀ {l : List (String × Entry)} {ps : List Pub},
    buildPubs l = .ok ps →
      List.Forall₂ (fun ke p => buildPub ke.1 ke.2 = .ok p) l ps := by
  intro l
  induction l with
  | nil =>
    intro ps h
    injection h with h
    subst h
    exact List.Forall₂.nil
  | cons ke rest ih =>
    obtain ⟨k, e⟩ := ke
    intro ps h
    rw [buildPubs] at h
    cases hb : buildPub k e <;> rw [hb] at h
    · cases h
    · cases hr : buildPubs rest <;> rw [hr] at h
      · cases h
      · injection h with h
        subst h
        exact List.Forall₂.cons hb (ih hr)

theorem forall2_mem_right {α β : Type} {Q : α → β → Prop} :
    ∀ {l : List α} {ps : List β}, List.Forall₂ Q l ps →
      ∀ {pb}, pb ∈ ps → ∃ y ∈ l, Q y pb := by
  intro l ps hf
  induction hf with
  | nil =>
    intro pb h
    cases h
  | cons hq hf2 ih =>
    intro pb h
    cases h with
    | head => exact ⟨_, List.mem_cons_self _ _, hq⟩
    | tail _ h2 =>
      obtain ⟨y, hy, hqy⟩ := ih h2
      exact ⟨y, List.mem_cons_of_mem _ hy, hqy⟩

theorem pairwise_of_forall2 {α β : Type} {Q : α → β → Prop} {A : α → α → Prop}
    {B : β → β → Prop}
    (him : ∀ x y px py, Q x px → Q y py → A x y → B px py) :
    ∀ {l : List α} {ps : List β}, List.Forall₂ Q l ps → List.Pairwise A l →
      List.Pairwise B ps := by
  intro l ps hf
  induction hf with
  | nil =>
    intro _
    exact List.Pairwise.nil
  | cons hq hf2 ih =>
    intro hp
    rcases hp with _ | ⟨h1, h2⟩
    refine List.Pairwise.cons ?_ (ih h2)
    intro pb hpb
    obtain ⟨y, hy, hqy⟩ := forall2_mem_right hf2 hpb
    exact him _ _ _ _ hq hqy (h1 y hy)

theorem forall2_map_eq {α β γ : Type} {Q : α → β → Prop} (f : α → γ) (g : β → γ)
    (hfg : ∀ x p, Q x p → g p = f x) :
    ∀ {l : List α} {ps : List β}, List.Forall₂ Q l ps → ps.map g = l.map f := by
  intro l ps hf
  induction hf with
  | nil => rfl
  | cons hq hf2 ih => simp [List.map_cons, ih, hfg _ _ hq]

theorem sortPubs_ok {l out : List Pub} (h : sortPubs l = .ok out) :
    out = sortYearDesc l := by
  rw [sortPubs] at h
  by_cases h1 : l.length ≤ 1
  · rw [if_pos h1] at h
    injection h with h
    subst h
    cases l with
    | nil => rfl
    | cons a l2 =>
      cases l2 with
      | nil => rfl
      | cons b l3 => simp at h1
  · rw [if_neg h1] at h
    by_cases h2 : l.all (fun p => p.year.isSome) = true
    · rw [if_pos h2] at h
      injection h with h
      exact h.symm
    · rw [if_neg h2] at h
      cases h

theorem runPipeline_ok {db : List (String × Entry)} {out : List Pub}
    (h : runPipeline db = .ok out) :
    ∃ pubs, buildPubs (sortAyt db) = .ok pubs ∧ sortPubs pubs = .ok out := by
  rw [runPipeline] at h
  cases hb : buildPubs (sortAyt db) <;> rw [hb] at h
  · cases h
  · exact ⟨_, rfl, h⟩

theorem forall2_and_left {α β : Type} {Q : α → β → Prop} {P : α → Prop} :
    ∀ {l : List α} {ps : List β}, List.Forall₂ Q l ps → (∀ x ∈ l, P x) →
      List.Forall₂ (fun x p => Q x p ∧ P x) l ps := by
  intro l ps hf
  induction hf with
  | nil =>
    intro _
    exact List.Forall₂.nil
  | cons hq hf2 ih =>
    intro hp
    exact List.Forall₂.cons ⟨hq, hp _ (List.mem_cons_self _ _)⟩
      (ih (fun x hx => hp x (List.mem_cons_of_mem _ hx)))

theorem lookupEntry_of_mem : ∀ {db : List (String × Entry)} {k : String} {e : Entry},
    (k, e) ∈ db → (db.map Prod.fst).Nodup → lookupEntry db k = some e := by
  intro db
  induction db with
  | nil =>
    intro k e hm _
    cases hm
  | cons ke rest ih =>
    obtain ⟨k2, e2⟩ := ke
    intro k e hm hnd
    rw [List.map_cons, List.nodup_cons] at hnd
    cases hm with
    | head =>
      rw [lookupEntry, if_pos rfl]
    | tail _ hm2 =>
      have hne : ¬ k2 = k := by
        intro hh
        apply hnd.1
        rw [hh]
        exact List.mem_map.mpr ⟨(k, e), hm2, rfl⟩
      rw [lookupEntry, if_neg hne]
      exact ih hm2 hnd.2

/-- C3: when the pipeline succeeds on a database with distinct keys,
the output has exactly one record per entry, its keys are pairwise
distinct, and every output key is the key of a database entry. -/
theorem claim3_length_keys (db : List (String × Entry)) (out : List Pub)
    (hnd : (db.map Prod.fst).Nodup) (h : runPipeline db = .ok out) :
    out.length = db.length ∧ (out.map Pub.key).Nodup ∧
      ∀ p ∈ out, p.key ∈ db.map Prod.fst := by
  obtain ⟨pubs, hb, hs⟩ := runPipeline_ok h
  have hf := buildPubs_forall2 hb
  have hkeys : pubs.map Pub.key = (sortAyt db).map Prod.fst :=
    forall2_map_eq Prod.fst Pub.key (fun x p hq => (buildPub_ok_eqs hq).1) hf
  have hperm1 : (sortAyt db).Perm db := sortAyt_perm db
  have hout : out = sortYearDesc pubs := sortPubs_ok hs
  have hperm2 : out.Perm pubs := by
    rw [hout]
    exact sortYearDesc_perm pubs
  refine ⟨?_, ?_, ?_⟩
  · calc out.length = pubs.length := hperm2.length_eq
      _ = (sortAyt db).length := (List.Forall₂.length_eq hf).symm
      _ = db.length := hperm1.length_eq
  · have h1 : (out.map Pub.key).Perm (pubs.map Pub.key) := hperm2.map _
    rw [hkeys] at h1
    have h2 : (out.map Pub.key).Perm (db.map Prod.fst) :=
      h1.trans (hperm1.map Prod.fst)
    exact h2.symm.nodup hnd
  · intro p hp
    have hp2 : p ∈ pubs := hperm2.mem_iff.mp hp
    have h3 : p.key ∈ pubs.map Pub.key := List.mem_map_of_mem Pub.key hp2
    rw [hkeys] at h3
    exact (hperm1.map Prod.fst).mem_iff.mp h3

theorem claim3_witness :
    ∃ out, runPipeline dbEqualYears = .ok out ∧
      (out.length = dbEqualYears.length ∧ (out.map Pub.key).Nodup ∧
        ∀ p ∈ out, p.key ∈ dbEqualYears.map Prod.fst) :=
  ⟨_, rfl, claim3_length_keys dbEqualYears _ (by decide) rfl⟩

/-- C1 counterexample: a database of two equal-year entries, the
alphabetically later author first, comes out of the pipeline in the
opposite of parse order, because the plain style pre-sorts by author,
year and title before the stable year sort. -/
theorem claim1_counterexample :
    (runPipeline dbEqualYears).map (fun l => l.map Pub.key) = .ok ["b", "a"] ∧
      dbEqualYears.map Prod.fst = ["a", "b"] ∧
      (∀ ke ∈ dbEqualYears, lookupStr ke.2.fields "year" = some "2020") :=
  ⟨rfl, rfl, by decide⟩

/-- C1 amended: for a database whose entries all have a year and with
distinct keys, a successful run yields a list sorted by year
descending (string comparison), and entries with equal year appear in
ascending order of the plain style's author-year-title sorting key of
their database entries, not in original parse order. -/
theorem claim1_amended (db : List (String × Entry)) (out : List Pub)
    (hnd : (db.map Prod.fst).Nodup)
    (hy : ∀ ke ∈ db, (lookupStr ke.2.fields "year").isSome = true)
    (h : runPipeline db = .ok out) :
    List.Pairwise (fun a b => strLtB (pubYearKey a) (pubYearKey b) = false) out ∧
    List.Pairwise (fun a b => pubYearKey a = pubYearKey b →
      keyLtB (entryKeyOf db b) (entryKeyOf db a) = false) out := by
  obtain ⟨pubs, hb, hs⟩ := runPipeline_ok h
  have hf := buildPubs_forall2 hb
  have hout : out = sortYearDesc pubs := sortPubs_ok hs
  have hmem : ∀ x ∈ sortAyt db, x ∈ db := fun x hx => (sortAyt_perm db).mem_iff.mp hx
  have hf2 := forall2_and_left hf hmem
  have hpw : List.Pairwise
      (fun p q => keyLtB (entryKeyOf db q) (entryKeyOf db p) = false) pubs := by
    refine pairwise_of_forall2 ?_ hf2 (sortAyt_pairwise db)
    intro x y px py hqx hqy hA
    have hlx : lookupEntry db x.1 = some x.2 := by
      apply lookupEntry_of_mem ?_ hnd
      have := hqx.2
      rwa [Prod.mk.eta]
    have hly : lookupEntry db y.1 = some y.2 := by
      apply lookupEntry_of_mem ?_ hnd
      have := hqy.2
      rwa [Prod.mk.eta]
    have hex : entryKeyOf db px = sortingKey x.2 := by
      rw [entryKeyOf, (buildPub_ok_eqs hqx.1).1, hlx]
    have hey : entryKeyOf db py = sortingKey y.2 := by
      rw [entryKeyOf, (buildPub_ok_eqs hqy.1).1, hly]
    rw [hex, hey]
    exact hA
  have hfinal := sortYearDesc_pairwise _ pubs hpw
  rw [← hout] at hfinal
  constructor
  · refine List.Pairwise.imp ?_ hfinal
    intro a b hab
    rcases hab with hlt | ⟨heq, _⟩
    · exact strLtB_asymm hlt
    · rw [heq]
      exact strLtB_irrefl _
  · refine List.Pairwise.imp ?_ hfinal
    intro a b hab heq
    rcases hab with hlt | ⟨_, hB⟩
    · exfalso
      rw [heq, strLtB_irrefl] at hlt
      exact Bool.false_ne_true hlt
    · exact hB

theorem claim1_witness :
    ∃ out, runPipeline dbEqualYears = .ok out ∧
      List.Pairwise (fun a b => strLtB (pubYearKey a) (pubYearKey b) = false) out ∧
      List.Pairwise (fun a b => pubYearKey a = pubYearKey b →
        keyLtB (entryKeyOf dbEqualYears b) (entryKeyOf dbEqualYears a) = false) out :=
  ⟨_, rfl, (claim1_amended dbEqualYears _ (by decide) (by decide) rfl).1,
    (claim1_amended dbEqualYears _ (by decide) (by decide) rfl).2⟩

theorem scanUntil_append (p : Char → Bool) :
    ∀ (xs : List Char) (y : Char) (rest : List Char),
      (∀ c ∈ xs, p c = false) → p y = true →
      scanUntil p (xs ++ y :: rest) = (xs, y :: rest) := by
  intro xs
  induction xs with
  | nil =>
    intro y rest _ hy
    rw [List.nil_append, scanUntil, if_pos hy]
  | cons c cs ih =>
    intro y rest hall hy
    have hc : p c = false := hall c (List.mem_cons_self c cs)
    simp only [List.cons_append, scanUntil, hc, Bool.false_eq_true, if_false,
      List.append_eq]
    rw [ih y rest (fun d hd => hall d (List.mem_cons_of_mem c hd)) hy]

theorem dropWs_cons_not (c : Char) (l : List Char) (hc : isWsChar c = false) :
    dropWs (c :: l) = c :: l := by
  simp [dropWs, hc]

theorem parseFieldsGo_step (fuel : Nat) (n v : String) (tail : List Char)
    (hnemp : n ≠ "")
    (hchars : (n.data.all fun c => !isNameStop c && goodValueChar c) = true)
    (hlow : lowerStr n = n)
    (hv : v.data.all goodValueChar = true) :
    parseFieldsGo (fuel + 1) ((writeField n v).data ++ tail) =
      (match parseFieldsGo fuel tail with
        | some fields => some ((n, v) :: fields)
        | none => none) := by
  have hdata : (writeField n v).data ++ tail =
      (",\n    ").data ++ (n.data ++ ((" = \x7b").data ++ (v.data ++ (("\x7d").data ++ tail)))) := by
    simp [writeField, String.data_append]
  rw [hdata]
  show parseFieldsGo (fuel + 1)
    (',' :: '\n' :: ' ' :: ' ' :: ' ' :: ' ' ::
      (n.data ++ (' ' :: '=' :: ' ' :: '\x7b' :: (v.data ++ ('\x7d' :: tail))))) = _
  cases hd : n.data with
  | nil => exact absurd (String.ext hd) hnemp
  | cons c cs =>
    have hcall : ∀ d ∈ c :: cs, (!isNameStop d && goodValueChar d) = true := by
      intro d hdm
      exact List.all_eq_true.mp (hd ▸ hchars) d hdm
    have hstopall : ∀ d ∈ c :: cs, isNameStop d = false := by
      intro d hdm
      have h2 := hcall d hdm
      rw [Bool.and_eq_true, Bool.not_eq_true'] at h2
      exact h2.1
    have hcws : isWsChar c = false := by
      have h2 := hstopall c (List.mem_cons_self c cs)
      rw [isNameStop, Bool.or_eq_false_iff] at h2
      exact h2.1
    have hvnb : ∀ d ∈ v.data, (decide (d = '\x7d')) = false := by
      intro d hdm
      have h2 := List.all_eq_true.mp hv d hdm
      rw [goodValueChar, Bool.not_eq_true'] at h2
      rw [Bool.or_eq_false_iff, Bool.or_eq_false_iff] at h2
      exact h2.1.2
    rw [parseFieldsGo]
    rw [dropWs_cons_not ',' _ rfl]
    simp only []
    have e1 : dropWs ('\n' :: ' ' :: ' ' :: ' ' :: ' ' ::
        (c :: cs ++ ' ' :: '=' :: ' ' :: '\x7b' :: (v.data ++ '\x7d' :: tail))) =
        c :: cs ++ ' ' :: '=' :: ' ' :: '\x7b' :: (v.data ++ '\x7d' :: tail) := by
      show dropWs (c :: (cs ++ ' ' :: '=' :: ' ' :: '\x7b' :: (v.data ++ '\x7d' :: tail))) = _
      exact dropWs_cons_not c _ hcws
    rw [e1]
    have e2 : scanUntil isNameStop
        (c :: cs ++ ' ' :: '=' :: ' ' :: '\x7b' :: (v.data ++ '\x7d' :: tail)) =
        (c :: cs, ' ' :: '=' :: ' ' :: '\x7b' :: (v.data ++ '\x7d' :: tail)) := by
      have h3 := scanUntil_append isNameStop (c :: cs) ' '
        ('=' :: ' ' :: '\x7b' :: (v.data ++ '\x7d' :: tail)) hstopall rfl
      rwa [List.cons_append] at h3
    rw [e2]
    rw [if_neg (List.cons_ne_nil c cs)]
    have e3 : dropWs (' ' :: '=' :: ' ' :: '\x7b' :: (v.data ++ '\x7d' :: tail)) =
        '=' :: ' ' :: '\x7b' :: (v.data ++ '\x7d' :: tail) := by
      show dropWs ('=' :: ' ' :: '\x7b' :: (v.data ++ '\x7d' :: tail)) = _
      exact dropWs_cons_not '=' _ rfl
    rw [e3]
    simp only []
    have e4 : dropWs (' ' :: '\x7b' :: (v.data ++ '\x7d' :: tail)) =
        '\x7b' :: (v.data ++ '\x7d' :: tail) := by
      show dropWs ('\x7b' :: (v.data ++ '\x7d' :: tail)) = _
      exact dropWs_cons_not '\x7b' _ rfl
    rw [e4]
    simp only []
    rw [scanUntil_append (fun d => decide (d = '\x7d')) v.data '\x7d' tail hvnb (by decide)]
    simp only []
    have hmk : String.mk (c :: cs) = n := by rw [← hd]
    rw [hmk, hlow]

theorem parseFieldsGo_end (fuel : Nat) :
    parseFieldsGo (fuel + 1) ('\n' :: '\x7d' :: '\n' :: []) = some [] := rfl

theorem stringFoldlAppend (l : List String) : ∀ s : String,
    l.foldl (fun a b => a ++ b) s = s ++ l.foldl (fun a b => a ++ b) "" := by
  induction l with
  | nil =>
    intro s
    apply String.ext
    simp [List.foldl, String.data_append, show ("" : String).data = [] from rfl]
  | cons a l ih =>
    intro s
    rw [List.foldl, List.foldl, ih (s ++ a), ih ("" ++ a)]
    apply String.ext
    simp [String.data_append, show ("" : String).data = [] from rfl]

theorem stringJoin_cons (a : String) (l : List String) :
    String.join (a :: l) = a ++ String.join l := by
  show (a :: l).foldl (fun a b => a ++ b) "" = a ++ l.foldl (fun a b => a ++ b) ""
  rw [List.foldl, stringFoldlAppend]
  apply String.ext
  simp [String.data_append, show ("" : String).data = [] from rfl]

theorem parseFields_writeAll (fs : List (String × String))
    (hgood : ∀ kv ∈ fs, kv.1 ≠ "" ∧
      (kv.1.data.all fun c => !isNameStop c && goodValueChar c) = true ∧
      lowerStr kv.1 = kv.1 ∧ kv.2.data.all goodValueChar = true) :
    ∀ fuel, fs.length + 1 ≤ fuel →
      parseFieldsGo fuel
        ((String.join (fs.map (fun kv => writeField kv.1 kv.2))).data ++
          ('\n' :: '\x7d' :: '\n' :: [])) = some fs := by
  induction fs with
  | nil =>
    intro fuel hfuel
    cases fuel with
    | zero => exact absurd hfuel (by omega)
    | succ f => exact parseFieldsGo_end f
  | cons kv rest ih =>
    intro fuel hfuel
    obtain ⟨nm, vl⟩ := kv
    cases fuel with
    | zero => exact absurd hfuel (by omega)
    | succ f =>
      have hjoin : (String.join (((nm, vl) :: rest).map
            (fun kv => writeField kv.1 kv.2))).data ++ ('\n' :: '\x7d' :: '\n' :: []) =
          (writeField nm vl).data ++
            ((String.join (rest.map (fun kv => writeField kv.1 kv.2))).data ++
              ('\n' :: '\x7d' :: '\n' :: [])) := by
        rw [List.map_cons, stringJoin_cons, String.data_append, List.append_assoc]
      rw [hjoin]
      rw [parseFieldsGo_step f nm vl _
        (hgood (nm, vl) (List.mem_cons_self _ _)).1
        (hgood (nm, vl) (List.mem_cons_self _ _)).2.1
        (hgood (nm, vl) (List.mem_cons_self _ _)).2.2.1
        (hgood (nm, vl) (List.mem_cons_self _ _)).2.2.2]
      rw [ih (fun kv hkv => hgood kv (List.mem_cons_of_mem _ hkv)) f (by
        rw [List.length_cons] at hfuel
        omega)]

theorem stringJoin_append (l1 l2 : List String) :
    String.join (l1 ++ l2) = String.join l1 ++ String.join l2 := by
  induction l1 with
  | nil => rfl
  | cons a l ih =>
    rw [List.cons_append, stringJoin_cons, stringJoin_cons, ih, String.append_assoc]

theorem foldlDepth_id : ∀ (l : List Char), (∀ c ∈ l, goodValueChar c = true) →
    ∀ d : Int,
      l.foldl (fun d c => if c = '\x7b' then d + 1 else if c = '\x7d' then d - 1 else d) d = d
  | [], _, d => rfl
  | c :: cs, h, d => by
    have hc := h c (List.mem_cons_self _ _)
    rw [goodValueChar, Bool.not_eq_true', Bool.or_eq_false_iff, Bool.or_eq_false_iff] at hc
    obtain ⟨⟨h1, h2⟩, _⟩ := hc
    rw [List.foldl_cons, if_neg (of_decide_eq_false h1), if_neg (of_decide_eq_false h2)]
    exact foldlDepth_id cs (fun x hx => h x (List.mem_cons_of_mem _ hx)) d

theorem balancedValue_of_good (s : String) (h : s.data.all goodValueChar = true) :
    balancedValue s = true := by
  rw [balancedValue, braceDepth, foldlDepth_id s.data (List.all_eq_true.mp h) 0]
  rfl

theorem writeField_head (n v : String) : ∃ tl, (writeField n v).data = ',' :: tl :=
  ⟨_, rfl⟩

theorem joinWriteFields_length (fs : List (String × String)) :
    fs.length ≤ (String.join (fs.map (fun kv => writeField kv.1 kv.2))).data.length := by
  induction fs with
  | nil => simp
  | cons kv rest ih =>
    rw [List.map_cons, stringJoin_cons, String.data_append, List.length_append,
      List.length_cons]
    obtain ⟨tl, htl⟩ := writeField_head kv.1 kv.2
    rw [htl]
    simp only [List.length_cons]
    omega

theorem typeName_no_brace (t : EntryType) :
    ∀ c ∈ (typeName t).data, decide (c = '\x7b') = false := by
  cases t <;> decide

theorem lowerStr_typeName (t : EntryType) : lowerStr (typeName t) = typeName t := by
  cases t <;> rfl

theorem roleName_components (r : String) (h : isRoleName r = true) :
    r ≠ "" ∧ (r.data.all fun c => !isNameStop c && goodValueChar c) = true ∧
      lowerStr r = r := by
  rw [isRoleName, Bool.or_eq_true] at h
  rcases h with h | h
  · have he := of_decide_eq_true h
    subst he
    exact ⟨by decide, by decide, rfl⟩
  · have he := of_decide_eq_true h
    subst he
    exact ⟨by decide, by decide, rfl⟩

theorem goodKeyChar_not_stop (c : Char) (h : goodKeyChar c = true) :
    (decide (c = ',') || decide (c = '\n') || decide (c = '\x7d')) = false := by
  rw [goodKeyChar, isWsChar, Bool.not_eq_true'] at h
  simp only [Bool.or_eq_false_iff] at h
  simp only [Bool.or_eq_false_iff]
  exact ⟨⟨h.1.1.1.1, h.2.1.1.2⟩, h.1.1.2⟩

theorem joinFields_head (fs : List (String × String)) :
    ∃ y tl, (String.join (fs.map (fun kv => writeField kv.1 kv.2))).data ++
      ('\n' :: '\x7d' :: '\n' :: ([] : List Char)) = y :: tl ∧
      (decide (y = ',') || decide (y = '\n') || decide (y = '\x7d')) = true := by
  cases fs with
  | nil => exact ⟨'\n', '\x7d' :: '\n' :: [], rfl, by decide⟩
  | cons kv rest =>
    rw [List.map_cons, stringJoin_cons, String.data_append, List.append_assoc]
    obtain ⟨tl, htl⟩ := writeField_head kv.1 kv.2
    rw [htl, List.cons_append]
    exact ⟨',', _, rfl, by decide⟩

theorem bool_and_split {a b : Bool} (h : (a && b) = true) : a = true ∧ b = true := by
  rw [Bool.and_eq_true] at h
  exact h

theorem parseBibEntry_writeEntry (key : String) (e : Entry)
    (h : writableEntry key e = true) :
    ∃ out, writeEntry key e = Except.ok out ∧
      parseBibEntry out =
        some (typeName e.type, key, personPairs e, e.fields) := by
  rw [writableEntry, Bool.and_eq_true, Bool.and_eq_true, Bool.and_eq_true] at h
  obtain ⟨⟨⟨hkne, hkchars⟩, hfields⟩, hpersons⟩ := h
  have hfieldsM := List.all_eq_true.mp hfields
  have hpersonsM := List.all_eq_true.mp hpersons
  have hkcharsM := List.all_eq_true.mp hkchars
  have hcond : (e.persons.all (fun rp => rp.2.isEmpty || balancedValue (joinNames rp.2)) &&
      e.fields.all (fun kv => balancedValue kv.2)) = true := by
    rw [Bool.and_eq_true]
    refine ⟨List.all_eq_true.mpr fun rp hm => ?_, List.all_eq_true.mpr fun kv hm => ?_⟩
    · obtain ⟨_, hv⟩ := bool_and_split (hpersonsM rp hm)
      rw [balancedValue_of_good _ hv, Bool.or_true]
    · obtain ⟨_, hv⟩ := bool_and_split (hfieldsM kv hm)
      exact balancedValue_of_good _ hv
  have hw : writeEntry key e = Except.ok ("@" ++ typeName e.type ++ "\x7b" ++ key
      ++ String.join ((e.persons.filter (fun rp => !rp.2.isEmpty)).map
          (fun rp => writeField rp.1 (joinNames rp.2)))
      ++ String.join (e.fields.map (fun kv => writeField kv.1 kv.2))
      ++ "\n\x7d\n") := by
    rw [writeEntry, if_pos hcond]
  refine ⟨_, hw, ?_⟩
  have hmapeq : (e.persons.filter (fun rp => !rp.2.isEmpty)).map
      (fun rp => writeField rp.1 (joinNames rp.2)) =
      (personPairs e).map (fun kv => writeField kv.1 kv.2) := by
    rw [personPairs, List.map_map]
    rfl
  have hjoin : String.join ((e.persons.filter (fun rp => !rp.2.isEmpty)).map
        (fun rp => writeField rp.1 (joinNames rp.2))) ++
      String.join (e.fields.map (fun kv => writeField kv.1 kv.2)) =
      String.join ((personPairs e ++ e.fields).map (fun kv => writeField kv.1 kv.2)) := by
    rw [hmapeq, List.map_append, stringJoin_append]
  have hJd : (String.join ((e.persons.filter (fun rp => !rp.2.isEmpty)).map
        (fun rp => writeField rp.1 (joinNames rp.2)))).data ++
      (String.join (e.fields.map (fun kv => writeField kv.1 kv.2))).data =
      (String.join ((personPairs e ++ e.fields).map (fun kv => writeField kv.1 kv.2))).data := by
    rw [← String.data_append, hjoin]
  have hdata : ("@" ++ typeName e.type ++ "\x7b" ++ key
      ++ String.join ((e.persons.filter (fun rp => !rp.2.isEmpty)).map
          (fun rp => writeField rp.1 (joinNames rp.2)))
      ++ String.join (e.fields.map (fun kv => writeField kv.1 kv.2))
      ++ "\n\x7d\n").data =
      '@' :: ((typeName e.type).data ++ ('\x7b' :: (key.data ++
        ((String.join ((personPairs e ++ e.fields).map
            (fun kv => writeField kv.1 kv.2))).data ++
          ('\n' :: '\x7d' :: '\n' :: []))))) := by
    rw [← hJd]
    simp only [String.data_append, List.append_assoc, List.cons_append, List.nil_append,
      show ("@" : String).data = ['@'] from rfl,
      show ("\x7b" : String).data = ['\x7b'] from rfl,
      show ("\n\x7d\n" : String).data = ['\n', '\x7d', '\n'] from rfl]
  have hrole : ∀ kv ∈ personPairs e, isRoleName kv.1 = true := by
    intro kv hm
    rw [personPairs] at hm
    obtain ⟨rp, hrp, rfl⟩ := List.mem_map.mp hm
    exact (bool_and_split (hpersonsM rp (List.mem_of_mem_filter hrp))).1
  have hnonrole : ∀ kv ∈ e.fields, isRoleName kv.1 = false := by
    intro kv hm
    have hg := (bool_and_split (hfieldsM kv hm)).1
    rw [goodFieldName, Bool.and_eq_true, Bool.and_eq_true, Bool.and_eq_true] at hg
    have h2 := hg.2
    rw [Bool.not_eq_true'] at h2
    exact h2
  have hfilt1 : (personPairs e ++ e.fields).filter (fun kv => isRoleName kv.1) =
      personPairs e := by
    rw [List.filter_append, List.filter_eq_self.mpr hrole,
      List.filter_eq_nil_iff.mpr (fun kv hm => by simp [hnonrole kv hm]),
      List.append_nil]
  have hfilt2 : (personPairs e ++ e.fields).filter (fun kv => !isRoleName kv.1) =
      e.fields := by
    rw [List.filter_append,
      List.filter_eq_nil_iff.mpr (fun kv hm => by simp [hrole kv hm]),
      List.filter_eq_self.mpr (fun kv hm => by simp [hnonrole kv hm]),
      List.nil_append]
  have hgoodFS : ∀ kv ∈ personPairs e ++ e.fields, kv.1 ≠ "" ∧
      (kv.1.data.all fun c => !isNameStop c && goodValueChar c) = true ∧
      lowerStr kv.1 = kv.1 ∧ kv.2.data.all goodValueChar = true := by
    intro kv hm
    rcases List.mem_append.mp hm with hm | hm
    · rw [personPairs] at hm
      obtain ⟨rp, hrp, rfl⟩ := List.mem_map.mp hm
      obtain ⟨hr, hv⟩ := bool_and_split (hpersonsM rp (List.mem_of_mem_filter hrp))
      obtain ⟨h1, h2, h3⟩ := roleName_components rp.1 hr
      exact ⟨h1, h2, h3, hv⟩
    · obtain ⟨hg, hv⟩ := bool_and_split (hfieldsM kv hm)
      rw [goodFieldName, Bool.and_eq_true, Bool.and_eq_true, Bool.and_eq_true] at hg
      exact ⟨of_decide_eq_true hg.1.1.1, hg.1.1.2, of_decide_eq_true hg.1.2, hv⟩
  rw [parseBibEntry, hdata]
  simp only []
  rw [scanUntil_append (fun c => decide (c = '\x7b')) (typeName e.type).data '\x7b' _
    (typeName_no_brace e.type) (by decide)]
  simp only []
  obtain ⟨y, tl, hyt, hy⟩ := joinFields_head (personPairs e ++ e.fields)
  rw [hyt]
  rw [scanUntil_append (fun c => decide (c = ',') || decide (c = '\n') || decide (c = '\x7d'))
    key.data y tl (fun c hc => goodKeyChar_not_stop c (hkcharsM c hc)) hy]
  simp only []
  rw [← hyt]
  rw [parseFields_writeAll (personPairs e ++ e.fields) hgoodFS _ (by
    have hlen := joinWriteFields_length (personPairs e ++ e.fields)
    simp only [List.length_append, List.length_cons, List.length_nil] at hlen ⊢
    omega)]
  simp only []
  rw [hfilt1, hfilt2, lowerStr_typeName]

/-- C9: for every entry the writer can serialise (plain key, lowercase
non-role field names, brace- and newline-free values), the publication
record built for it carries the source key in its key slot, and the raw
bibtex slot, re-parsed by the parser model, recovers the entry's type,
its key, its person roles and its fields verbatim. -/
theorem claim9_roundtrip (key : String) (e : Entry) (p : Pub)
    (h : writableEntry key e = true) (hp : buildPub key e = Except.ok p) :
    p.key = key ∧
    parseBibEntry p.bibtex =
      some (typeName e.type, key, personPairs e, e.fields) := by
  obtain ⟨out, hw, hparse⟩ := parseBibEntry_writeEntry key e h
  rw [buildPub] at hp
  cases hfmt : formatEntry e with
  | error err =>
    rw [hfmt] at hp
    simp only [] at hp
    exact Except.noConfusion hp
  | ok t =>
    rw [hfmt] at hp
    simp only [] at hp
    rw [hw] at hp
    simp only [] at hp
    rw [Except.ok.injEq] at hp
    subst hp
    exact ⟨rfl, hparse⟩

theorem claim9_witness :
    writableEntry "foo1" articleFoo = true ∧
    buildPub "foo1" articleFoo = Except.ok pubFoo ∧
    pubFoo.key = "foo1" ∧
    parseBibEntry pubFoo.bibtex =
      some (typeName articleFoo.type, "foo1", personPairs articleFoo, articleFoo.fields) :=
  ⟨by decide, rfl, (claim9_roundtrip "foo1" articleFoo pubFoo (by decide) rfl).1,
    (claim9_roundtrip "foo1" articleFoo pubFoo (by decide) rfl).2⟩
